import Mathlib

/-!
# Verification of the vel0city collision-and-movement core

Shallow embedding of the BSP collision engine (`src/bsp.rs`) and the
movement integrator (`src/player/movement.rs`) of the vel0city engine.

Scalars are embedded as exact rationals `ℚ` (the source uses `f32`; the
claims are about the real-arithmetic meaning of the code).  The `f32`
square root used by `na::norm` / `na::normalize` is modelled by `sqrtQ`,
a high-precision rational square root that is exact on rational squares
and otherwise a lower approximation with absolute error below `2⁻²⁰`
(comparable to `f32` rounding, and below the engine's approximate-equality
epsilon `1e-6`).

All structures and functions keep the names of the Rust source where Lean
allows it.  Fallible operations (array indexing, unbounded recursion over
node indices) return `Option`, with recursion made total by fuel.
-/

namespace Vel0city

/-- 3-vector over `ℚ`, embedding `na::Vec3<f32>` (points `na::Pnt3` are
identified with their coordinate vectors, as the source freely converts
with `to_vec`/`to_pnt`). -/
structure Vec3 where
  x : ℚ
  y : ℚ
  z : ℚ
deriving DecidableEq, Repr

def vzero : Vec3 := ⟨0, 0, 0⟩

def vadd (a b : Vec3) : Vec3 := ⟨a.x + b.x, a.y + b.y, a.z + b.z⟩

def vsub (a b : Vec3) : Vec3 := ⟨a.x - b.x, a.y - b.y, a.z - b.z⟩

/-- Scalar multiplication, `v * s` in the source. -/
def smul (s : ℚ) (v : Vec3) : Vec3 := ⟨s * v.x, s * v.y, s * v.z⟩

/-- `na::dot`. -/
def dotV (a b : Vec3) : ℚ := a.x * b.x + a.y * b.y + a.z * b.z

/-- `na::cross`. -/
def crossV (a b : Vec3) : Vec3 :=
  ⟨a.y * b.z - a.z * b.y, a.z * b.x - a.x * b.z, a.x * b.y - a.y * b.x⟩

/-- Squared euclidean norm (`na::sqnorm`). -/
def normSq (v : Vec3) : ℚ := dotV v v

/-- Fuelled integer square root by binary search on `[lo, hi)` with the
invariant `lo² ≤ n < hi²`; the fuel only bounds the number of halvings. -/
def isqrtGo (n : ℕ) : ℕ → ℕ → ℕ → ℕ
  | 0, lo, _ => lo
  | f + 1, lo, hi =>
    if hi ≤ lo + 1 then lo
    else
      let mid := (lo + hi) / 2
      if mid * mid ≤ n then isqrtGo n f mid hi else isqrtGo n f lo mid

/-- Integer square root: `⌊√n⌋`. -/
def isqrt (n : ℕ) : ℕ := isqrtGo n (n + 1) 0 (n + 1)

/-- Precision exponent of the rational square-root model: absolute error
below `2⁻²⁰ < 1e-6`. -/
def sqrtPrec : ℕ := 20

/-- Model of the `f32` square root on exact rationals:
`√(a/b) = √(a·b)/b` computed to `sqrtPrec` binary digits, rounding down.
Exact whenever the argument is the square of a rational. -/
def sqrtQ (q : ℚ) : ℚ :=
  (isqrt (q.num.toNat * q.den * 4 ^ sqrtPrec) : ℚ) / ((q.den : ℚ) * 2 ^ sqrtPrec)

/-- `na::norm`. -/
def normV (v : Vec3) : ℚ := sqrtQ (normSq v)

/-- `na::normalize`: `v / |v|`. -/
def normalizeV (v : Vec3) : Vec3 := smul (1 / normV v) v

/-- `na::abs` on scalars (defined by sign test so that it evaluates by
kernel reduction; equal to `|·|`, see `qabs_eq_abs`). -/
def qabs (a : ℚ) : ℚ := if a < 0 then -a else a

/-- The absolute epsilon of `na::approx_eq` for `f32` (`1.0e-6`, see
spec §7). -/
def approxEps : ℚ := 1 / 1000000

/-- `na::approx_eq` on scalars: `|a - b| < 1e-6`. -/
def approxEq (a b : ℚ) : Bool := qabs (a - b) < approxEps

/-- `na::clamp(val, min, max)`. -/
def clampQ (val lo hi : ℚ) : ℚ := if val < lo then lo else if val > hi then hi else val

/-! ## BSP collision engine (`src/bsp.rs`) -/

/-- `bsp::cast::CastResult`: time of impact and the normal of the plane hit. -/
structure CastResult where
  toi : ℚ
  norm : Vec3
deriving DecidableEq, Repr

/-- `bsp::cast::Ray`: a swept AABB — origin, full displacement, half-extents. -/
structure Ray where
  orig : Vec3
  dir : Vec3
  halfextents : Vec3
deriving DecidableEq, Repr

/-- `bsp::PlaneTestResult`. -/
inductive PlaneTestResult where
  | Front : PlaneTestResult
  | Back : PlaneTestResult
  | Span : CastResult → PlaneTestResult
deriving DecidableEq, Repr

/-- `bsp::Plane`: oriented half-space `{p : norm·p = dist}`. -/
structure Plane where
  norm : Vec3
  dist : ℚ
deriving DecidableEq, Repr

/-- `Plane::point_on`: a point lying on the plane (`norm * dist`). -/
def Plane.point_on (p : Plane) : Vec3 := smul p.dist p.norm

/-- The support pad computed at the start of `Plane::test_ray`:
projection of the half-extents onto the plane normal. -/
def padOf (p : Plane) (r : Ray) : ℚ :=
  qabs (r.halfextents.x * p.norm.x) + qabs (r.halfextents.y * p.norm.y) +
    qabs (r.halfextents.z * p.norm.z)

/-- Signed distance of the sweep start point in `Plane::test_ray`
(`dot(start, norm) - dist`). -/
def startdistOf (p : Plane) (r : Ray) : ℚ := dotV r.orig p.norm - p.dist

/-- Signed distance of the sweep end point in `Plane::test_ray`. -/
def enddistOf (p : Plane) (r : Ray) : ℚ := dotV (vadd r.orig r.dir) p.norm - p.dist

/-- `Plane::test_ray`, line by line from the source. -/
def Plane.test_ray (p : Plane) (r : Ray) : PlaneTestResult :=
  let pad := padOf p r
  let startdist := startdistOf p r
  let enddist := enddistOf p r
  if startdist ≥ pad ∧ enddist ≥ pad then PlaneTestResult.Front
  else if startdist < -pad ∧ enddist < -pad then PlaneTestResult.Back
  else
    let absstart := qabs startdist
    let totaldist := qabs (startdist - enddist)
    let toi := if absstart ≤ pad ∨ totaldist = 0 then 0 else (absstart - pad) / totaldist
    PlaneTestResult.Span ⟨toi, p.norm⟩

/-- `Ray::split`: the parts `[0, toi]` and `[toi, 1]` of the sweep. -/
def Ray.split (r : Ray) (toi : ℚ) : Ray × Ray :=
  (⟨r.orig, smul toi r.dir, r.halfextents⟩,
   ⟨vadd r.orig (smul toi r.dir), smul (1 - toi) r.dir, r.halfextents⟩)

/-- `bsp::InnerNode`: a splitting plane and two signed child indices
(negative `k` encodes leaf `-k - 1`). -/
structure InnerNode where
  plane : Plane
  pos : Int
  neg : Int
deriving DecidableEq, Repr

/-- `bsp::Leaf`. -/
structure Leaf where
  solid : Bool
deriving DecidableEq, Repr

/-- `bsp::Tree`. -/
structure Tree where
  inodes : List InnerNode
  leaves : List Leaf
  root : Int
deriving DecidableEq, Repr

/-- `JustFirstPlaneVisitor::visit_plane`: keep the minimum-TOI cast result
(a later result replaces the stored one when its TOI is `≤`). -/
def visitPlane (best : Option CastResult) (castresult : CastResult) : Option CastResult :=
  match best with
  | some b => if castresult.toi ≤ b.toi then some castresult else some b
  | none => some castresult

/-- `Tree::cast_ray_recursive`, specialised to the `JustFirstPlaneVisitor`
used by `cast_ray`; the visitor state is threaded explicitly.  Returns
`none` on fuel exhaustion or on an index out of range (where the source
panics or diverges); otherwise `some (solid, best)` where `solid` is the
Rust return value. -/
def cast_ray_recursive (t : Tree) :
    ℕ → Ray → Int → Option CastResult → Option (Bool × Option CastResult)
  | 0, _, _, _ => none
  | fuel + 1, ray, nodeidx, best =>
    if nodeidx < 0 then
      match t.leaves[(-nodeidx - 1).toNat]? with
      | some l => some (l.solid, best)
      | none => none
    else
      match t.inodes[nodeidx.toNat]? with
      | none => none
      | some node =>
        match node.plane.test_ray ray with
        | PlaneTestResult.Front => cast_ray_recursive t fuel ray node.pos best
        | PlaneTestResult.Back => cast_ray_recursive t fuel ray node.neg best
        | PlaneTestResult.Span cresult =>
          let rsplit := ray.split cresult.toi
          let rfirst := if dotV ray.dir node.plane.norm ≥ 0 then rsplit.1 else rsplit.2
          let rlast := if dotV ray.dir node.plane.norm ≥ 0 then rsplit.2 else rsplit.1
          match cast_ray_recursive t fuel rfirst node.pos best with
          | none => none
          | some (b1, best1) =>
            if b1 then some (true, visitPlane best1 cresult)
            else
              match cast_ray_recursive t fuel rlast node.neg best1 with
              | none => none
              | some (b2, best2) =>
                if b2 then some (true, visitPlane best2 cresult)
                else some (false, best2)

/-- `Tree::cast_ray`: run the recursion from the root with a fresh
`JustFirstPlaneVisitor` and return its best result.  `none` models a
failed (panicking / diverging) recursion, `some res` a completed cast. -/
def cast_ray (t : Tree) (fuel : ℕ) (ray : Ray) : Option (Option CastResult) :=
  (cast_ray_recursive t fuel ray t.root none).map Prod.snd

/-- `Tree::contains_point_recursive`. -/
def contains_point_recursive (t : Tree) : ℕ → Vec3 → Int → Option Bool
  | 0, _, _ => none
  | fuel + 1, point, nodeidx =>
    if nodeidx < 0 then none
    else
      match t.inodes[nodeidx.toNat]? with
      | none => none
      | some node =>
        let dir := vsub point node.plane.point_on
        if dotV dir node.plane.norm > 0 then
          if node.pos < 0 then (t.leaves[(-node.pos - 1).toNat]?).map Leaf.solid
          else contains_point_recursive t fuel point node.pos
        else
          if node.neg < 0 then (t.leaves[(-node.neg - 1).toNat]?).map Leaf.solid
          else contains_point_recursive t fuel point node.neg

/-- `Tree::contains_point`. -/
def contains_point (t : Tree) (fuel : ℕ) (point : Vec3) : Option Bool :=
  contains_point_recursive t fuel point t.root

/-! ## Movement integrator (`src/player/movement.rs`)

The `player` module itself (the `Player` struct and its bitflags) and the
`MoveSettings` variant carrying the air-movement fields are declared
outside `src/`; they are modelled from the spec (§3 *PlayerState*,
*MoveSettings*) restricted to the fields the integrator reads. -/

/-- Modelled from the spec: the `PLAYER_ONGROUND` / `PLAYER_JUMPED`
bitflags of the `player` module (not under `src/`), as two booleans. -/
structure PlayerFlags where
  onGround : Bool
  jumped : Bool
deriving DecidableEq, Repr

/-- Modelled from the spec: the fields of `player::Player` that
`move_player` reads and writes (position, velocity, half-extents, flags). -/
structure Player where
  pos : Vec3
  vel : Vec3
  halfextents : Vec3
  flags : PlayerFlags
deriving DecidableEq, Repr

/-- Modelled from the spec: `MoveSettings` as used by `move_player`
(the copy in `src/settings.rs` predates the air-movement fields
`airaccel` / `airspeed` that `move_player` reads). -/
structure MoveSettings where
  gravity : ℚ
  accel : ℚ
  airaccel : ℚ
  friction : ℚ
  speedeps : ℚ
  maxspeed : ℚ
  movespeed : ℚ
  airspeed : ℚ
  jumpspeed : ℚ
deriving DecidableEq, Repr

/-- `movement::MoveInput`. -/
structure MoveInput where
  wishvel : Vec3
  jump : Bool
  reset : Bool
deriving DecidableEq, Repr

/-- `movement::clip_velocity`: `vel - norm * dot(vel, norm) * 1.01`. -/
def clip_velocity (vel norm : Vec3) : Vec3 :=
  vsub vel (smul (dotV vel norm * (101 / 100)) norm)

/-- The debug-reset block of `move_player` (teleport to spawn, zero
velocity, clear flags). -/
def resetStep (reset : Bool) (pl : Player) : Player :=
  if reset then { pl with pos := ⟨0, 10, 0⟩, vel := vzero, flags := ⟨false, false⟩ } else pl

/-- The jump block of `move_player` (source lines 29–42).  The
`pl.flags.insert(PLAYER_JUMPED)` of the latch is commented out in the
source, so this block never sets `JUMPED`. -/
def jumpStep (jumpspeed : ℚ) (jump : Bool) (pl : Player) : Player :=
  if jump && pl.flags.onGround then
    if !pl.flags.jumped then
      { pl with
        vel := { pl.vel with y := if pl.vel.y > jumpspeed then pl.vel.y + jumpspeed else jumpspeed },
        flags := { pl.flags with onGround := false } }
    else pl
  else pl

/-- The friction block of `move_player` (source lines 62–77). -/
def frictionStep (friction speedeps maxspeed dt : ℚ) (vel : Vec3) : Vec3 :=
  let speed := normV vel
  if approxEq speed 0 then vel
  else
    let dir := normalizeV vel
    let removespeed := friction * dt * (if speed < speedeps then speedeps else speed)
    let newspeed := clampQ (speed - removespeed) 0 maxspeed
    smul newspeed dir

/-- The acceleration block of `move_player` (source lines 79–89),
including the 3-D `horizvel` copy and the `movespeed`-based `maxdelta`. -/
def accelStep (accel movespeed speedcap : ℚ) (wishvel : Vec3) (dt : ℚ) (vel : Vec3) : Vec3 :=
  let horizvel : Vec3 := ⟨vel.x, vel.y, vel.z⟩
  let wishspeed := clampQ (normV wishvel) 0 speedcap
  if approxEq wishspeed 0 then vel
  else
    let movedir := normalizeV wishvel
    let curspeed := dotV horizvel movedir
    let maxdelta := accel * movespeed * dt
    let addspeed := clampQ (wishspeed - curspeed) 0 maxdelta
    vadd vel (smul addspeed movedir)

/-- The post-gravity speed clamp of `move_player` (source lines 94–101). -/
def postClamp (maxspeed : ℚ) (vel : Vec3) : Vec3 :=
  let speed := normV vel
  if approxEq speed 0 then vel
  else smul (clampQ speed 0 maxspeed) (normalizeV vel)

/-- The inner `j`-scan of the contact-resolution loop: is some other
contact still being violated by `v`? -/
def anyNegOther (contacts : List Vec3) (i : ℕ) (v : Vec3) : Bool :=
  (List.range contacts.length).any
    (fun j => (j != i) && decide (dotV (contacts.getD j vzero) v < 0))

/-- The `for i in 0..numcontacts` clipping loop of `move_player`
(source lines 145–158): clip `v` against the contacts in order, exiting
early as soon as no other contact is violated; returns the clipped
velocity and the final value of `bad`. -/
def clipStage (full : List Vec3) : List Vec3 → ℕ → Vec3 → Vec3 × Bool
  | [], _, v => (v, false)
  | c :: rest, i, v =>
    let v1 := clip_velocity v c
    if !anyNegOther full i v1 then (v1, false)
    else
      match rest with
      | [] => (v1, true)
      | c2 :: rest2 => clipStage full (c2 :: rest2) (i + 1) v1

/-- The `if bad` fallback of `move_player` (source lines 159–171):
re-clip for a single contact, slide along the crease (with the
forward-speed boost) for two, and zero the velocity otherwise. -/
def resolveBad (contacts : List Vec3) (v : Vec3) : Vec3 :=
  match contacts with
  | [c0] => clip_velocity v c0
  | [c0, c1] =>
    let movedir := normalizeV v
    let crease := crossV c0 c1
    let v2 := smul (dotV v crease) crease
    smul (1 + (1 / 2) * dotV movedir c0) v2
  | _ => vzero

/-- Contact resolution for one hit of the slide loop: the clipping loop,
the `bad` fallback, and the reversal guard (source lines 144–174).
`plvel` is `pl.vel`, unchanged throughout the loop. -/
def slideContact (contacts : List Vec3) (plvel : Vec3) : Vec3 :=
  let vb := clipStage contacts contacts 0 plvel
  let v := if vb.2 then resolveBad contacts vb.1 else vb.1
  if dotV v plvel < 0 ∨ normV v < 3 / 4 then vzero else v

/-- The collide-and-slide loop of `move_player` (source lines 109–179):
up to three sweep iterations; the contact list models the live prefix of
the fixed `contacts` array.  Returns `none` when a cast fails (fuel or
malformed tree), otherwise the final `(pos, v, hit_floor)`. -/
def slideMove (t : Tree) (fuel : ℕ) (he : Vec3) (plvel : Vec3) :
    ℕ → Vec3 → ℚ → Vec3 → Bool → List Vec3 → Option (Vec3 × Vec3 × Bool)
  | 0, pos, _, v, hitFloor, _ => some (pos, v, hitFloor)
  | n + 1, pos, dt, v, hitFloor, contacts =>
    if approxEq dt 0 then some (pos, v, hitFloor)
    else
      match cast_ray t fuel ⟨pos, smul dt v, he⟩ with
      | none => none
      | some none => some (vadd pos (smul dt v), v, hitFloor)
      | some (some cast) =>
        let hitFloor1 := hitFloor || decide (cast.norm.y > 7 / 10)
        if cast.toi > 0 then
          let pos1 := vadd pos (smul (cast.toi * dt) v)
          let dt1 := dt * (1 - cast.toi)
          if cast.toi ≥ 1 then some (pos1, v, hitFloor1)
          else
            let contacts1 := [cast.norm]
            slideMove t fuel he plvel n pos1 dt1 (slideContact contacts1 plvel) hitFloor1 contacts1
        else
          let contacts1 := contacts ++ [cast.norm]
          slideMove t fuel he plvel n pos dt (slideContact contacts1 plvel) hitFloor1 contacts1

/-- `movement::move_player`, assembled from the blocks above in source
order: reset, jump, parameter selection by ground state, friction,
acceleration, gravity, post-clamp, jump-latch clear, collide-and-slide,
ground flag.  The `Game` indirection of the source (`game.players[idx]`,
`game.movesettings`, `game.map.bsp`) is passed as explicit arguments. -/
def move_player (settings : MoveSettings) (bsp : Tree) (fuel : ℕ)
    (pl : Player) (input : MoveInput) (dt : ℚ) : Option Player :=
  let pl0 := resetStep input.reset pl
  let pl1 := jumpStep settings.jumpspeed input.jump pl0
  let accel := if pl1.flags.onGround then settings.accel else settings.airaccel
  let friction := if pl1.flags.onGround then settings.friction else 0
  let speedcap := if pl1.flags.onGround then settings.movespeed else settings.airspeed
  let vel1 := frictionStep friction settings.speedeps settings.maxspeed dt pl1.vel
  let vel2 := accelStep accel settings.movespeed speedcap input.wishvel dt vel1
  let vel3 := { vel2 with y := vel2.y - settings.gravity * dt }
  let vel4 := postClamp settings.maxspeed vel3
  let flags1 := if !input.jump then { pl1.flags with jumped := false } else pl1.flags
  match slideMove bsp fuel pl1.halfextents vel4 3 pl1.pos dt vel4 false [] with
  | none => none
  | some (pos, v, hitFloor) =>
    some { pl1 with pos := pos, vel := v, flags := { flags1 with onGround := hitFloor } }

/-! ## Basic lemmas -/

lemma qabs_eq_abs (a : ℚ) : qabs a = |a| := by
  unfold qabs
  rcases lt_or_le a 0 with h | h
  · rw [if_pos h, abs_of_neg h]
  · rw [if_neg (not_lt.mpr h), abs_of_nonneg h]

lemma qabs_nonneg (a : ℚ) : 0 ≤ qabs a := by
  rw [qabs_eq_abs]
  exact abs_nonneg a

lemma pad_nonneg (p : Plane) (r : Ray) : 0 ≤ padOf p r := by
  unfold padOf
  have h1 := qabs_nonneg (r.halfextents.x * p.norm.x)
  have h2 := qabs_nonneg (r.halfextents.y * p.norm.y)
  have h3 := qabs_nonneg (r.halfextents.z * p.norm.z)
  linarith

lemma normSq_nonneg (v : Vec3) : 0 ≤ normSq v := by
  unfold normSq dotV
  have h1 := mul_self_nonneg v.x
  have h2 := mul_self_nonneg v.y
  have h3 := mul_self_nonneg v.z
  linarith

lemma normSq_smul (c : ℚ) (v : Vec3) : normSq (smul c v) = c ^ 2 * normSq v := by
  unfold normSq dotV smul
  ring

lemma dotV_smul_right (a b : Vec3) (c : ℚ) : dotV a (smul c b) = c * dotV a b := by
  unfold dotV smul
  ring

lemma normSq_eq_zero_iff (v : Vec3) : normSq v = 0 ↔ v = vzero := by
  unfold normSq dotV vzero
  constructor
  · intro h
    have hx : v.x = 0 := by nlinarith [sq_nonneg v.x, sq_nonneg v.y, sq_nonneg v.z]
    have hy : v.y = 0 := by nlinarith [sq_nonneg v.x, sq_nonneg v.y, sq_nonneg v.z]
    have hz : v.z = 0 := by nlinarith [sq_nonneg v.x, sq_nonneg v.y, sq_nonneg v.z]
    cases v
    simp_all
  · intro h
    rw [h]
    norm_num

/-- Lagrange's identity for the cross product, used to bound the crease. -/
lemma normSq_cross (a b : Vec3) :
    normSq (crossV a b) = normSq a * normSq b - dotV a b ^ 2 := by
  unfold normSq dotV crossV
  ring

/-- Cauchy–Schwarz for `Vec3`, via Lagrange's identity. -/
lemma dotV_sq_le (a b : Vec3) : dotV a b ^ 2 ≤ normSq a * normSq b := by
  have h := normSq_cross a b
  have h2 := normSq_nonneg (crossV a b)
  linarith

/-! ## C7 and C5: classification and TOI of `test_ray` -/

/-- `test_ray` with its let-bindings expanded, for rewriting. -/
lemma test_ray_unfold (p : Plane) (r : Ray) :
    p.test_ray r =
      (if startdistOf p r ≥ padOf p r ∧ enddistOf p r ≥ padOf p r then PlaneTestResult.Front
       else if startdistOf p r < -padOf p r ∧ enddistOf p r < -padOf p r then
         PlaneTestResult.Back
       else PlaneTestResult.Span
         ⟨if qabs (startdistOf p r) ≤ padOf p r ∨ qabs (startdistOf p r - enddistOf p r) = 0
             then 0
             else (qabs (startdistOf p r) - padOf p r) / qabs (startdistOf p r - enddistOf p r),
          p.norm⟩) := rfl

/-- C7 (counterexample): the claim classifies `ds ≤ -pad ∧ de ≤ -pad`
— "including the boundary cases where a distance equals `-pad`" — as
`Back`, but the source's `Back` test is strict (`startdist < -pad`):
at `ds = de = -pad` the code returns a `Span`, not `Back`. -/
theorem C7_back_boundary_counterexample :
    let p : Plane := ⟨⟨1, 0, 0⟩, 0⟩
    let r : Ray := ⟨⟨-1, 0, 0⟩, vzero, ⟨1, 0, 0⟩⟩
    startdistOf p r ≤ -padOf p r ∧ enddistOf p r ≤ -padOf p r ∧
      p.test_ray r ≠ PlaneTestResult.Back := by
  with_unfolding_all decide

/-- C7 (amended): `test_ray` returns `Front` exactly when
`ds ≥ pad ∧ de ≥ pad` (boundary included), and `Back` exactly when
`ds < -pad ∧ de < -pad` — strict, so a distance exactly equal to `-pad`
falls through to the straddling (`Span`) case. -/
theorem C7_front_back_classification (p : Plane) (r : Ray) :
    (p.test_ray r = PlaneTestResult.Front ↔
      startdistOf p r ≥ padOf p r ∧ enddistOf p r ≥ padOf p r) ∧
    (p.test_ray r = PlaneTestResult.Back ↔
      startdistOf p r < -padOf p r ∧ enddistOf p r < -padOf p r) := by
  rw [test_ray_unfold]
  split_ifs with h1 h2
  · refine ⟨⟨fun _ => h1, fun _ => rfl⟩, ⟨fun h => by simp at h, fun h => ?_⟩⟩
    have hpad := pad_nonneg p r
    exact absurd h.1 (not_lt.mpr (by linarith [h1.1]))
  · refine ⟨⟨fun h => by simp at h, fun h => ?_⟩, ⟨fun _ => h2, fun _ => rfl⟩⟩
    have hpad := pad_nonneg p r
    exact absurd h2.1 (not_lt.mpr (by linarith [h.1]))
  · exact ⟨⟨fun h => by simp at h, fun h => absurd h h1⟩,
      ⟨fun h => by simp at h, fun h => absurd h h2⟩⟩

/-- C5 (counterexample): for the plane `x = 0` and the point sweep from
`(-1/2,0,0)` by `(1,0,0)`, the code's TOI is `1/2`; the claim's formula
`(|ds| - pad - eps) / |ds - de|` with the `1/16` back-off gives `7/16`,
so the code's TOI does not match the claimed formula. -/
theorem C5_eps_counterexample :
    let p : Plane := ⟨⟨1, 0, 0⟩, 0⟩
    let r : Ray := ⟨⟨-1/2, 0, 0⟩, ⟨1, 0, 0⟩, vzero⟩
    p.test_ray r = PlaneTestResult.Span ⟨1/2, ⟨1, 0, 0⟩⟩ ∧
      (1 : ℚ)/2 ≠ clampQ ((qabs (startdistOf p r) - padOf p r - 1/16) /
        qabs (startdistOf p r - enddistOf p r)) 0 1 := by
  with_unfolding_all decide

/-- C5 (amended): on a straddling sweep with `ds ≠ de`, `test_ray`
returns a `Span` whose TOI is `(|ds| - pad) / |ds - de|` when
`|ds| > pad` and `0` otherwise; there is no `eps` back-off term in the
code, and the value already lies in `[0, 1]` without clamping. -/
theorem C5_span_toi (p : Plane) (r : Ray)
    (hnf : ¬(startdistOf p r ≥ padOf p r ∧ enddistOf p r ≥ padOf p r))
    (hnb : ¬(startdistOf p r < -padOf p r ∧ enddistOf p r < -padOf p r))
    (hne : startdistOf p r ≠ enddistOf p r) :
    p.test_ray r = PlaneTestResult.Span
      ⟨if qabs (startdistOf p r) ≤ padOf p r then 0
        else (qabs (startdistOf p r) - padOf p r) / qabs (startdistOf p r - enddistOf p r),
       p.norm⟩ ∧
    (0 : ℚ) ≤ (if qabs (startdistOf p r) ≤ padOf p r then 0
        else (qabs (startdistOf p r) - padOf p r) / qabs (startdistOf p r - enddistOf p r)) ∧
    (if qabs (startdistOf p r) ≤ padOf p r then 0
        else (qabs (startdistOf p r) - padOf p r) / qabs (startdistOf p r - enddistOf p r)) ≤ 1 := by
  have hpad := pad_nonneg p r
  set ds := startdistOf p r with hds
  set de := enddistOf p r with hde
  set pad := padOf p r with hp
  have htd : qabs (ds - de) ≠ 0 := by
    rw [qabs_eq_abs]
    intro h
    exact hne (by linarith [abs_eq_zero.mp h])
  have htdpos : 0 < qabs (ds - de) := lt_of_le_of_ne (qabs_nonneg _) (Ne.symm htd)
  refine ⟨?_, ?_, ?_⟩
  · rw [test_ray_unfold, ← hds, ← hde, ← hp, if_neg hnf, if_neg hnb]
    have hcond : (qabs ds ≤ pad ∨ qabs (ds - de) = 0) ↔ qabs ds ≤ pad := by
      simp [htd]
    rw [if_congr hcond rfl rfl]
  · split_ifs with h
    · exact le_refl 0
    · exact div_nonneg (by linarith [not_le.mp h]) (le_of_lt htdpos)
  · split_ifs with h
    · norm_num
    · rw [div_le_one htdpos]
      push_neg at h hnf hnb
      rw [qabs_eq_abs] at h ⊢
      rw [qabs_eq_abs]
      rcases le_or_lt 0 ds with hds0 | hds0
      · rw [abs_of_nonneg hds0] at h ⊢
        have hde2 : de < pad := by
          rcases lt_or_le ds pad with h2 | h2
          · linarith
          · exact hnf h2
        have h3 : ds - de ≤ |ds - de| := le_abs_self _
        linarith
      · rw [abs_of_neg hds0] at h ⊢
        rcases lt_or_le ds (-pad) with h2 | h2
        · have hde2 : -pad ≤ de := hnb h2
          have h3 : -(ds - de) ≤ |ds - de| := neg_le_abs _
          linarith
        · linarith

/-- C5 witness: the amended TOI formula evaluated on the point sweep from
`(-1/2,0,0)` by `(1,0,0)` against the plane `x = 0`. -/
theorem C5_span_toi_witness :
    let p : Plane := ⟨⟨1, 0, 0⟩, 0⟩
    let r : Ray := ⟨⟨-1/2, 0, 0⟩, ⟨1, 0, 0⟩, vzero⟩
    (¬(startdistOf p r ≥ padOf p r ∧ enddistOf p r ≥ padOf p r) ∧
     ¬(startdistOf p r < -padOf p r ∧ enddistOf p r < -padOf p r) ∧
     startdistOf p r ≠ enddistOf p r) ∧
    (p.test_ray r = PlaneTestResult.Span
      ⟨if qabs (startdistOf p r) ≤ padOf p r then 0
        else (qabs (startdistOf p r) - padOf p r) / qabs (startdistOf p r - enddistOf p r),
       p.norm⟩ ∧
    (0 : ℚ) ≤ (if qabs (startdistOf p r) ≤ padOf p r then 0
        else (qabs (startdistOf p r) - padOf p r) / qabs (startdistOf p r - enddistOf p r)) ∧
    (if qabs (startdistOf p r) ≤ padOf p r then 0
        else (qabs (startdistOf p r) - padOf p r) / qabs (startdistOf p r - enddistOf p r)) ≤ 1) := by
  refine ⟨by with_unfolding_all decide, C5_span_toi _ _ ?_ ?_ ?_⟩ <;> with_unfolding_all decide

/-! ## C10: the clip-velocity operator -/

lemma clip_velocity_dot (v n : Vec3) :
    dotV (clip_velocity v n) n = dotV v n - (101/100) * dotV v n * normSq n := by
  unfold clip_velocity vsub smul normSq dotV
  ring

lemma clip_velocity_normSq (v n : Vec3) :
    normSq (clip_velocity v n) =
      normSq v - (101/50) * dotV v n ^ 2 + (10201/10000) * dotV v n ^ 2 * normSq n := by
  unfold clip_velocity vsub smul normSq dotV
  ring

lemma clip_velocity_normSq_unit (v n : Vec3) (h : normSq n = 1) :
    normSq (clip_velocity v n) = normSq v - (9999/10000) * dotV v n ^ 2 := by
  rw [clip_velocity_normSq, h]
  ring

lemma clip_velocity_normSq_le (v n : Vec3) (h : normSq n = 1) :
    normSq (clip_velocity v n) ≤ normSq v := by
  rw [clip_velocity_normSq_unit v n h]
  nlinarith [sq_nonneg (dotV v n)]

/-- C10: for a unit normal `n`, `clip_velocity v n = v - n·(v·n)·1.01`
flips and scales the normal component to `-0.01·(v·n)`, and the squared
magnitude drops by `0.9999·(v·n)²`, so clipping never speeds the player
up. -/
theorem C10_clip_velocity_props (v n : Vec3) (h : normSq n = 1) :
    dotV (clip_velocity v n) n = -(1/100) * dotV v n ∧
    normSq (clip_velocity v n) = normSq v - (9999/10000) * dotV v n ^ 2 ∧
    normSq (clip_velocity v n) ≤ normSq v := by
  refine ⟨?_, clip_velocity_normSq_unit v n h, clip_velocity_normSq_le v n h⟩
  rw [clip_velocity_dot, h]
  ring

/-- C10 witness: clipping `(1,2,3)` against the unit normal `(3/5,4/5,0)`. -/
theorem C10_clip_velocity_witness :
    normSq ⟨3/5, 4/5, 0⟩ = 1 ∧
    (dotV (clip_velocity ⟨1, 2, 3⟩ ⟨3/5, 4/5, 0⟩) ⟨3/5, 4/5, 0⟩ =
        -(1/100) * dotV ⟨1, 2, 3⟩ ⟨3/5, 4/5, 0⟩ ∧
      normSq (clip_velocity ⟨1, 2, 3⟩ ⟨3/5, 4/5, 0⟩) =
        normSq ⟨1, 2, 3⟩ - (9999/10000) * dotV ⟨1, 2, 3⟩ ⟨3/5, 4/5, 0⟩ ^ 2 ∧
      normSq (clip_velocity ⟨1, 2, 3⟩ ⟨3/5, 4/5, 0⟩) ≤ normSq ⟨1, 2, 3⟩) :=
  ⟨by with_unfolding_all decide,
   C10_clip_velocity_props ⟨1, 2, 3⟩ ⟨3/5, 4/5, 0⟩ (by with_unfolding_all decide)⟩

/-! ## C4: the jump block -/

/-- C4 (counterexample): with `jumpspeed = 2` and prior `vel.y = 1 > 0`,
the claim's formula `max(vel.y + jumpspeed, jumpspeed)` gives `3`, but
the code's branch condition is `vel.y > jumpspeed` (not `vel.y > 0`), so
it sets `vel.y = jumpspeed = 2`. -/
theorem C4_max_counterexample :
    let pl : Player := ⟨vzero, ⟨0, 1, 0⟩, ⟨1, 1, 1⟩, ⟨true, false⟩⟩
    pl.flags.onGround = true ∧ pl.flags.jumped = false ∧
      (jumpStep 2 true pl).vel.y ≠ max (pl.vel.y + 2) 2 := by
  with_unfolding_all decide

/-- C4 (amended): with the jump button held, `ON_GROUND` set and `JUMPED`
clear, the jump block clears `ON_GROUND` and sets
`vel.y ← vel.y + jumpspeed` when `vel.y > jumpspeed`, else `jumpspeed`;
this agrees with the claimed `max(vel.y + jumpspeed, jumpspeed)` whenever
`vel.y ≤ 0` (and for `vel.y > jumpspeed`), but not on `0 < vel.y ≤ jumpspeed`. -/
theorem C4_jump_amended (js : ℚ) (pl : Player) (hg : pl.flags.onGround = true)
    (hj : pl.flags.jumped = false) (hjs : 0 ≤ js) :
    (jumpStep js true pl).flags.onGround = false ∧
    (jumpStep js true pl).vel.y = (if js < pl.vel.y then pl.vel.y + js else js) ∧
    (pl.vel.y ≤ 0 → (jumpStep js true pl).vel.y = max (pl.vel.y + js) js) := by
  refine ⟨?_, ?_, ?_⟩
  · simp [jumpStep, hg, hj]
  · simp [jumpStep, hg, hj]
  · intro hy
    simp only [jumpStep, hg, hj, Bool.and_self, Bool.not_false, if_true]
    split_ifs with h
    · linarith
    · exact (max_eq_right (by linarith)).symm

/-- C4 witness: `jumpspeed = 2`, grounded player with `vel.y = -1`. -/
theorem C4_jump_witness :
    let pl : Player := ⟨vzero, ⟨0, -1, 0⟩, ⟨1, 1, 1⟩, ⟨true, false⟩⟩
    (pl.flags.onGround = true ∧ pl.flags.jumped = false ∧ (0 : ℚ) ≤ 2) ∧
    ((jumpStep 2 true pl).flags.onGround = false ∧
     (jumpStep 2 true pl).vel.y = (if (2 : ℚ) < pl.vel.y then pl.vel.y + 2 else 2) ∧
     (pl.vel.y ≤ 0 → (jumpStep 2 true pl).vel.y = max (pl.vel.y + 2) 2)) := by
  refine ⟨by with_unfolding_all decide, C4_jump_amended 2 _ ?_ ?_ ?_⟩ <;>
    with_unfolding_all decide

/-! ## C9: the acceleration step -/

lemma clampQ_nonneg (x hi : ℚ) (h : 0 ≤ hi) : 0 ≤ clampQ x 0 hi := by
  unfold clampQ
  split_ifs with h1 h2
  · exact le_refl 0
  · exact h
  · exact not_lt.mp h1

lemma dotV_vadd_left (a b c : Vec3) : dotV (vadd a b) c = dotV a c + dotV b c := by
  unfold dotV vadd
  ring

lemma dotV_smul_left (c : ℚ) (a b : Vec3) : dotV (smul c a) b = c * dotV a b := by
  unfold dotV smul
  ring

lemma smul_vzero (c : ℚ) : smul c vzero = vzero := by
  unfold smul vzero
  norm_num

lemma dotV_vzero_right (a : Vec3) : dotV a vzero = 0 := by
  unfold dotV vzero
  ring

lemma vadd_vzero (a : Vec3) : vadd a vzero = a := by
  unfold vadd vzero
  cases a
  norm_num

/-- C9 (counterexample): the acceleration block is skipped entirely when
`wishspeed` is approximately zero, so for a tiny but non-zero `wishvel`
the post-step projection stays at `curspeed` even though the claimed
`addspeed` is strictly positive. -/
theorem C9_skip_counterexample :
    let v : Vec3 := ⟨-1, 0, 0⟩
    let w : Vec3 := ⟨1/100000000, 0, 0⟩
    let movedir := normalizeV w
    let curspeed := dotV v movedir
    let wishspeed := clampQ (normV w) 0 30
    let addspeed := clampQ (wishspeed - curspeed) 0 (10 * 320 * 1)
    w ≠ vzero ∧ 0 < addspeed ∧
      dotV (accelStep 10 320 30 w 1 v) movedir ≠ curspeed + addspeed := by
  with_unfolding_all decide

/-- C9 (amended): whenever the acceleration block actually runs
(`wishspeed` not approximately zero) and `accel, movespeed, dt ≥ 0`,
`addspeed = clamp(wishspeed - curspeed, 0, accel·movespeed·dt)` is
nonnegative and the post-step projection onto `movedir` is exactly
`curspeed + addspeed ≥ curspeed`: the step never decelerates the
projection.  (`hexact` states that the modelled square root is exact on
`|wishvel|²`, i.e. `movedir` is a genuine unit vector as in the source's
real-arithmetic reading.) -/
theorem C9_accel_monotone (accel movespeed speedcap dt : ℚ) (wishvel vel : Vec3)
    (ha : 0 ≤ accel) (hm : 0 ≤ movespeed) (hdt : 0 ≤ dt)
    (hexact : normV wishvel * normV wishvel = normSq wishvel)
    (hrun : approxEq (clampQ (normV wishvel) 0 speedcap) 0 = false) :
    0 ≤ clampQ (clampQ (normV wishvel) 0 speedcap - dotV vel (normalizeV wishvel)) 0
        (accel * movespeed * dt) ∧
    dotV (accelStep accel movespeed speedcap wishvel dt vel) (normalizeV wishvel) =
      dotV vel (normalizeV wishvel) +
        clampQ (clampQ (normV wishvel) 0 speedcap - dotV vel (normalizeV wishvel)) 0
          (accel * movespeed * dt) ∧
    dotV vel (normalizeV wishvel) ≤
      dotV (accelStep accel movespeed speedcap wishvel dt vel) (normalizeV wishvel) := by
  have hmd : 0 ≤ accel * movespeed * dt := mul_nonneg (mul_nonneg ha hm) hdt
  have haddnn := clampQ_nonneg
    (clampQ (normV wishvel) 0 speedcap - dotV vel (normalizeV wishvel))
    (accel * movespeed * dt) hmd
  have hmain : dotV (accelStep accel movespeed speedcap wishvel dt vel) (normalizeV wishvel) =
      dotV vel (normalizeV wishvel) +
        clampQ (clampQ (normV wishvel) 0 speedcap - dotV vel (normalizeV wishvel)) 0
          (accel * movespeed * dt) := by
    unfold accelStep
    simp only [hrun, Bool.false_eq_true, if_false]
    rw [dotV_vadd_left, dotV_smul_left]
    rcases eq_or_ne wishvel vzero with hw | hw
    · subst hw
      have hs : normV vzero = 0 := by
        have h0 : normSq vzero = 0 := (normSq_eq_zero_iff vzero).mpr rfl
        have := hexact
        rw [h0] at this
        exact mul_self_eq_zero.mp this
      have hmd0 : normalizeV vzero = vzero := by
        unfold normalizeV
        exact smul_vzero _
      rw [hmd0, dotV_vzero_right]
      have hcap : speedcap < 0 := by
        by_contra hc
        push_neg at hc
        have hws : clampQ (normV vzero) 0 speedcap = 0 := by
          unfold clampQ
          rw [hs]
          simp [not_lt.mpr hc, lt_irrefl]
        rw [hws] at hrun
        unfold approxEq qabs approxEps at hrun
        norm_num at hrun
      have hws2 : clampQ (normV vzero) 0 speedcap = speedcap := by
        unfold clampQ
        rw [hs]
        simp only [lt_irrefl, if_false, gt_iff_lt]
        rw [if_pos hcap]
      rw [hws2]
      have hadd0 : clampQ (speedcap - 0) 0 (accel * movespeed * dt) = 0 := by
        unfold clampQ
        rw [if_pos (by linarith)]
      rw [hadd0]
      ring
    · have hq : 0 < normSq wishvel := by
        rcases lt_or_eq_of_le (normSq_nonneg wishvel) with h | h
        · exact h
        · exact absurd ((normSq_eq_zero_iff wishvel).mp h.symm) hw
      have hs : normV wishvel ≠ 0 := by
        intro h
        rw [h, mul_zero] at hexact
        exact absurd hexact.symm (ne_of_gt hq)
      have hunit : dotV (normalizeV wishvel) (normalizeV wishvel) = 1 := by
        unfold normalizeV
        rw [dotV_smul_left, dotV_smul_right]
        show 1 / normV wishvel * (1 / normV wishvel * normSq wishvel) = 1
        rw [← hexact]
        field_simp
      rw [hunit]
      ring
  refine ⟨haddnn, hmain, ?_⟩
  rw [hmain]
  linarith

/-- C9 witness: `wishvel = (3,4,0)` (norm `5`), `vel = (1,0,0)`,
`accel = 10`, `movespeed = 320`, `speedcap = 30`, `dt = 1`. -/
theorem C9_accel_witness :
    let w : Vec3 := ⟨3, 4, 0⟩
    let v : Vec3 := ⟨1, 0, 0⟩
    ((0 : ℚ) ≤ 10 ∧ (0 : ℚ) ≤ 320 ∧ (0 : ℚ) ≤ 1 ∧
      normV w * normV w = normSq w ∧
      approxEq (clampQ (normV w) 0 30) 0 = false) ∧
    (0 ≤ clampQ (clampQ (normV w) 0 30 - dotV v (normalizeV w)) 0 (10 * 320 * 1) ∧
     dotV (accelStep 10 320 30 w 1 v) (normalizeV w) =
       dotV v (normalizeV w) +
         clampQ (clampQ (normV w) 0 30 - dotV v (normalizeV w)) 0 (10 * 320 * 1) ∧
     dotV v (normalizeV w) ≤ dotV (accelStep 10 320 30 w 1 v) (normalizeV w)) := by
  refine ⟨by with_unfolding_all decide, C9_accel_monotone 10 320 30 1 _ _ ?_ ?_ ?_ ?_ ?_⟩ <;>
    with_unfolding_all decide

/-! ## C6: zero-displacement casts -/

lemma vadd_vzero_right (a : Vec3) : vadd a vzero = a := vadd_vzero a

lemma split_zero_dir (r : Ray) (toi : ℚ) (h : r.dir = vzero) :
    (r.split toi).1.dir = vzero ∧ (r.split toi).2.dir = vzero ∧
    (r.split toi).1.halfextents = r.halfextents ∧
    (r.split toi).2.halfextents = r.halfextents := by
  unfold Ray.split
  rw [h]
  exact ⟨smul_vzero toi, smul_vzero (1 - toi), rfl, rfl⟩

lemma enddist_eq_startdist_zero_dir (p : Plane) (r : Ray) (h : r.dir = vzero) :
    enddistOf p r = startdistOf p r := by
  unfold enddistOf startdistOf
  rw [h, vadd_vzero]

/-- A zero-displacement sweep that straddles a plane always reports
TOI `0` (the `totaldist == 0` branch). -/
lemma test_ray_zero_dir_span (p : Plane) (r : Ray) (hdir : r.dir = vzero) :
    ∀ cr, p.test_ray r = PlaneTestResult.Span cr → cr.toi = 0 := by
  intro cr h
  have he := enddist_eq_startdist_zero_dir p r hdir
  have htd : qabs (startdistOf p r - enddistOf p r) = 0 := by
    rw [he, sub_self]
    rfl
  rw [test_ray_unfold] at h
  split_ifs at h with h1 h2 h3
  · cases h
    rfl
  · exact absurd (Or.inr htd) h3

/-- A zero-displacement, zero-halfextents sweep is always entirely in
front of or behind every plane. -/
lemma test_ray_zero_dir_zero_he (p : Plane) (r : Ray) (hdir : r.dir = vzero)
    (hhe : r.halfextents = vzero) :
    p.test_ray r = PlaneTestResult.Front ∨ p.test_ray r = PlaneTestResult.Back := by
  have he := enddist_eq_startdist_zero_dir p r hdir
  have hpad : padOf p r = 0 := by
    unfold padOf
    rw [hhe]
    show qabs (0 * p.norm.x) + qabs (0 * p.norm.y) + qabs (0 * p.norm.z) = 0
    norm_num [qabs]
  rw [test_ray_unfold, he, hpad]
  rcases le_or_lt 0 (startdistOf p r) with h | h
  · left
    rw [if_pos ⟨h, h⟩]
  · right
    rw [if_neg (by intro hc; linarith [hc.1]), if_pos ⟨by linarith, by linarith⟩]

lemma visitPlane_prop (P : CastResult → Prop) (best : Option CastResult)
    (cr2 : CastResult) (hb : ∀ c, best = some c → P c) (h2 : P cr2) :
    ∀ c, visitPlane best cr2 = some c → P c := by
  intro c h
  cases best with
  | none =>
    simp only [visitPlane] at h
    cases h
    exact h2
  | some b =>
    simp only [visitPlane] at h
    split_ifs at h
    · cases h
      exact h2
    · cases h
      exact hb _ rfl

/-- On a zero-displacement sweep every visited plane carries TOI `0`, so
any result `cast_ray_recursive` accumulates has TOI `0`. -/
lemma cast_ray_recursive_zero_dir_toi (t : Tree) : ∀ (fuel : ℕ) (ray : Ray) (idx : Int)
    (best : Option CastResult) (out : Bool × Option CastResult),
    ray.dir = vzero →
    cast_ray_recursive t fuel ray idx best = some out →
    (∀ cr, best = some cr → cr.toi = 0) →
    ∀ cr, out.2 = some cr → cr.toi = 0 := by
  intro fuel
  induction fuel with
  | zero =>
    intro ray idx best out hdir h hbest
    simp [cast_ray_recursive] at h
  | succ n ih =>
    intro ray idx best out hdir h hbest
    rw [cast_ray_recursive] at h
    by_cases hidx : idx < 0
    · rw [if_pos hidx] at h
      cases hleaf : t.leaves[(-idx - 1).toNat]? with
      | none =>
        simp only [hleaf] at h
        cases h
      | some l =>
        simp only [hleaf] at h
        cases h
        exact hbest
    · rw [if_neg hidx] at h
      cases hnode : t.inodes[idx.toNat]? with
      | none =>
        simp only [hnode] at h
        cases h
      | some node =>
        simp only [hnode] at h
        cases htest : node.plane.test_ray ray with
        | Front =>
          simp only [htest] at h
          exact ih ray node.pos best out hdir h hbest
        | Back =>
          simp only [htest] at h
          exact ih ray node.neg best out hdir h hbest
        | Span cresult =>
          simp only [htest] at h
          have htoi : cresult.toi = 0 := test_ray_zero_dir_span node.plane ray hdir _ htest
          have hsplit := split_zero_dir ray cresult.toi hdir
          have hr1dir : (if dotV ray.dir node.plane.norm ≥ 0 then (ray.split cresult.toi).1
              else (ray.split cresult.toi).2).dir = vzero := by
            split_ifs
            · exact hsplit.1
            · exact hsplit.2.1
          have hr2dir : (if dotV ray.dir node.plane.norm ≥ 0 then (ray.split cresult.toi).2
              else (ray.split cresult.toi).1).dir = vzero := by
            split_ifs
            · exact hsplit.2.1
            · exact hsplit.1
          cases h1 : cast_ray_recursive t n
              (if dotV ray.dir node.plane.norm ≥ 0 then (ray.split cresult.toi).1
                else (ray.split cresult.toi).2) node.pos best with
          | none =>
            simp only [h1] at h
            cases h
          | some out1 =>
            obtain ⟨b1, best1⟩ := out1
            simp only [h1] at h
            have hb1 : ∀ cr, best1 = some cr → cr.toi = 0 :=
              ih _ node.pos best (b1, best1) hr1dir h1 hbest
            cases b1 with
            | true =>
              rw [if_pos rfl] at h
              cases h
              exact visitPlane_prop (fun c => c.toi = 0) best1 cresult hb1 htoi
            | false =>
              rw [if_neg (by simp)] at h
              cases h2 : cast_ray_recursive t n
                  (if dotV ray.dir node.plane.norm ≥ 0 then (ray.split cresult.toi).2
                    else (ray.split cresult.toi).1) node.neg best1 with
              | none =>
                simp only [h2] at h
                cases h
              | some out2 =>
                obtain ⟨b2, best2⟩ := out2
                simp only [h2] at h
                have hb2 : ∀ cr, best2 = some cr → cr.toi = 0 :=
                  ih _ node.neg best1 (b2, best2) hr2dir h2 hb1
                cases b2 with
                | true =>
                  rw [if_pos rfl] at h
                  cases h
                  exact visitPlane_prop (fun c => c.toi = 0) best2 cresult hb2 htoi
                | false =>
                  rw [if_neg (by simp)] at h
                  cases h
                  exact hb2

/-- On a zero-displacement, zero-halfextents sweep the recursion never
straddles a plane, so the visitor state is returned untouched. -/
lemma cast_ray_recursive_zero_dir_zero_he (t : Tree) : ∀ (fuel : ℕ) (ray : Ray) (idx : Int)
    (best : Option CastResult) (out : Bool × Option CastResult),
    ray.dir = vzero → ray.halfextents = vzero →
    cast_ray_recursive t fuel ray idx best = some out →
    out.2 = best := by
  intro fuel
  induction fuel with
  | zero =>
    intro ray idx best out hdir hhe h
    simp [cast_ray_recursive] at h
  | succ n ih =>
    intro ray idx best out hdir hhe h
    rw [cast_ray_recursive] at h
    by_cases hidx : idx < 0
    · rw [if_pos hidx] at h
      cases hleaf : t.leaves[(-idx - 1).toNat]? with
      | none =>
        simp only [hleaf] at h
        cases h
      | some l =>
        simp only [hleaf] at h
        cases h
        rfl
    · rw [if_neg hidx] at h
      cases hnode : t.inodes[idx.toNat]? with
      | none =>
        simp only [hnode] at h
        cases h
      | some node =>
        simp only [hnode] at h
        rcases test_ray_zero_dir_zero_he node.plane ray hdir hhe with htest | htest <;>
          simp only [htest] at h
        · exact ih ray node.pos best out hdir hhe h
        · exact ih ray node.neg best out hdir hhe h

/-- C6 (counterexample): a zero-displacement sweep with non-zero
half-extents whose padded box straddles a solid plane returns a hit
(with TOI `0`), not absent. -/
theorem C6_zero_dir_counterexample :
    let t : Tree := ⟨[⟨⟨⟨1, 0, 0⟩, 0⟩, -1, -1⟩], [⟨true⟩], 0⟩
    let r : Ray := ⟨vzero, vzero, ⟨1, 0, 0⟩⟩
    r.dir = vzero ∧ cast_ray t 2 r = some (some ⟨0, ⟨1, 0, 0⟩⟩) := by
  with_unfolding_all decide

/-- C6 (amended): a completed zero-displacement cast returns either
absent or an initial-overlap contact with TOI `0`; with zero
half-extents (a true ray, as in the spec's "zero-length ray" degeneracy)
it always returns absent. -/
theorem C6_zero_dir_amended (t : Tree) (fuel : ℕ) (r : Ray) (res : Option CastResult)
    (hdir : r.dir = vzero) (h : cast_ray t fuel r = some res) :
    (∀ cr, res = some cr → cr.toi = 0) ∧ (r.halfextents = vzero → res = none) := by
  unfold cast_ray at h
  cases hrec : cast_ray_recursive t fuel r t.root none with
  | none =>
    rw [hrec] at h
    cases h
  | some out =>
    rw [hrec] at h
    have hres : out.2 = res := by
      cases h
      rfl
    constructor
    · intro cr hcr
      exact cast_ray_recursive_zero_dir_toi t fuel r t.root none out hdir hrec
        (by intro c hc; cases hc) cr (hres ▸ hcr)
    · intro hhe
      rw [← hres]
      exact cast_ray_recursive_zero_dir_zero_he t fuel r t.root none out hdir hhe hrec

/-- C6 witness: the zero-displacement, zero-halfextents cast against the
solid half-space `x ≥ 0` completes and returns absent. -/
theorem C6_zero_dir_witness :
    (Ray.dir ⟨vzero, vzero, vzero⟩ = vzero ∧
      cast_ray ⟨[⟨⟨⟨1, 0, 0⟩, 0⟩, -1, -1⟩], [⟨true⟩], 0⟩ 2 ⟨vzero, vzero, vzero⟩ =
        some none) ∧
    ((∀ cr, (none : Option CastResult) = some cr → cr.toi = 0) ∧
      (Ray.halfextents ⟨vzero, vzero, vzero⟩ = vzero → (none : Option CastResult) = none)) :=
  ⟨⟨rfl, by with_unfolding_all decide⟩,
   C6_zero_dir_amended ⟨[⟨⟨⟨1, 0, 0⟩, 0⟩, -1, -1⟩], [⟨true⟩], 0⟩ 2 ⟨vzero, vzero, vzero⟩
     none rfl (by with_unfolding_all decide)⟩

/-! ## The rational square-root model -/

lemma isqrtGo_spec (n : ℕ) : ∀ (f lo hi : ℕ), lo * lo ≤ n → n < hi * hi → lo < hi →
    hi ≤ lo + (f + 1) →
    isqrtGo n f lo hi * isqrtGo n f lo hi ≤ n ∧
      n < (isqrtGo n f lo hi + 1) * (isqrtGo n f lo hi + 1) := by
  intro f
  induction f with
  | zero =>
    intro lo hi hlo hhi hlt hle
    have hhi1 : hi = lo + 1 := le_antisymm hle hlt
    simp only [isqrtGo]
    exact ⟨hlo, by rw [← hhi1]; exact hhi⟩
  | succ f ih =>
    intro lo hi hlo hhi hlt hle
    rw [isqrtGo]
    by_cases h1 : hi ≤ lo + 1
    · rw [if_pos h1]
      have hhi1 : hi = lo + 1 := le_antisymm h1 hlt
      exact ⟨hlo, by rw [← hhi1]; exact hhi⟩
    · rw [if_neg h1]
      push_neg at h1
      dsimp only
      by_cases h2 : (lo + hi) / 2 * ((lo + hi) / 2) ≤ n
      · rw [if_pos h2]
        exact ih ((lo + hi) / 2) hi h2 hhi (by omega) (by omega)
      · rw [if_neg h2]
        push_neg at h2
        exact ih lo ((lo + hi) / 2) hlo h2 (by omega) (by omega)

lemma isqrt_spec (n : ℕ) :
    isqrt n * isqrt n ≤ n ∧ n < (isqrt n + 1) * (isqrt n + 1) := by
  unfold isqrt
  apply isqrtGo_spec n (n + 1) 0 (n + 1)
  · simp
  · nlinarith
  · omega
  · omega

lemma isqrt_sq (a : ℕ) : isqrt (a * a) = a := by
  have h := isqrt_spec (a * a)
  rcases Nat.lt_trichotomy (isqrt (a * a)) a with hlt | heq | hgt
  · exfalso
    have h1 : isqrt (a * a) + 1 ≤ a := hlt
    have h2 := Nat.mul_le_mul h1 h1
    omega
  · exact heq
  · exfalso
    have h1 : a + 1 ≤ isqrt (a * a) := hgt
    have h2 := Nat.mul_le_mul h1 h1
    have h3 := h.1
    nlinarith

/-- The square-root model is exact on squares of nonnegative rationals. -/
lemma sqrtQ_exact (a : ℚ) (h : 0 ≤ a) : sqrtQ (a * a) = a := by
  have h0 : 0 ≤ a.num := Rat.num_nonneg.mpr h
  obtain ⟨m, hm⟩ : ∃ m : ℕ, a.num = (m : ℤ) := ⟨a.num.toNat, (Int.toNat_of_nonneg h0).symm⟩
  have hden : (0 : ℚ) < (a.den : ℚ) := by exact_mod_cast a.pos
  have hkey : a * (a.den : ℚ) = (m : ℚ) := by
    rw [Rat.mul_den_eq_num, hm]
    norm_cast
  unfold sqrtQ
  rw [Rat.mul_self_num, Rat.mul_self_den, hm]
  have hnum : ((m : ℤ) * (m : ℤ)).toNat = m * m := by
    rw [← Int.natCast_mul, Int.toNat_natCast]
  rw [hnum]
  have harg : m * m * (a.den * a.den) * 4 ^ sqrtPrec =
      m * a.den * 2 ^ sqrtPrec * (m * a.den * 2 ^ sqrtPrec) := by
    rw [show (4 : ℕ) = 2 * 2 from rfl, Nat.mul_pow]
    ring
  rw [harg, isqrt_sq]
  rw [div_eq_iff (by positivity)]
  push_cast
  linear_combination (-((a.den : ℚ) * 2 ^ sqrtPrec)) * hkey

lemma sqrtQ_zero : sqrtQ 0 = 0 := by
  have := sqrtQ_exact 0 (le_refl 0)
  rw [mul_zero] at this
  exact this

lemma normV_vzero : normV vzero = 0 := by
  unfold normV
  rw [show normSq vzero = 0 from by unfold normSq dotV vzero; norm_num]
  exact sqrtQ_zero

lemma sqrtQ_nonneg (q : ℚ) : 0 ≤ sqrtQ q := by
  unfold sqrtQ
  positivity

lemma num_toNat_eq (q : ℚ) (h : 0 ≤ q) : ((q.num.toNat : ℕ) : ℚ) = q * (q.den : ℚ) := by
  have h1 : ((q.num.toNat : ℕ) : ℤ) = q.num := Int.toNat_of_nonneg (Rat.num_nonneg.mpr h)
  have h2 : ((q.num.toNat : ℕ) : ℚ) = ((q.num : ℤ) : ℚ) := by
    rw [← h1]
    norm_cast
  rw [h2, ← Rat.mul_den_eq_num]

/-- Lower-approximation property: the model never overshoots the true root. -/
lemma sqrtQ_sq_le (q : ℚ) (h : 0 ≤ q) : sqrtQ q * sqrtQ q ≤ q := by
  have hspec := (isqrt_spec (q.num.toNat * q.den * 4 ^ sqrtPrec)).1
  have hkey := num_toNat_eq q h
  unfold sqrtQ
  rw [div_mul_div_comm, div_le_iff₀ (by positivity)]
  calc (isqrt (q.num.toNat * q.den * 4 ^ sqrtPrec) : ℚ) *
      (isqrt (q.num.toNat * q.den * 4 ^ sqrtPrec) : ℚ)
      ≤ ((q.num.toNat * q.den * 4 ^ sqrtPrec : ℕ) : ℚ) := by exact_mod_cast hspec
    _ = q * ((q.den : ℚ) * 2 ^ sqrtPrec * ((q.den : ℚ) * 2 ^ sqrtPrec)) := by
        push_cast
        rw [hkey]
        rw [show ((4 : ℚ)) ^ sqrtPrec = 2 ^ sqrtPrec * 2 ^ sqrtPrec from by
          rw [← mul_pow]; norm_num]
        ring

/-- Upper bound: the model undershoots by less than `2⁻²⁰`. -/
lemma sqrtQ_upper (q : ℚ) (h : 0 ≤ q) :
    q < (sqrtQ q + 1 / 2 ^ sqrtPrec) * (sqrtQ q + 1 / 2 ^ sqrtPrec) := by
  have hspec := (isqrt_spec (q.num.toNat * q.den * 4 ^ sqrtPrec)).2
  have hkey := num_toNat_eq q h
  have hden : (0 : ℚ) < (q.den : ℚ) := by exact_mod_cast q.pos
  have hstep : q < (sqrtQ q + 1 / ((q.den : ℚ) * 2 ^ sqrtPrec)) *
      (sqrtQ q + 1 / ((q.den : ℚ) * 2 ^ sqrtPrec)) := by
    unfold sqrtQ
    rw [div_add_div_same, div_mul_div_comm, lt_div_iff₀ (by positivity)]
    calc q * ((q.den : ℚ) * 2 ^ sqrtPrec * ((q.den : ℚ) * 2 ^ sqrtPrec))
        = ((q.num.toNat * q.den * 4 ^ sqrtPrec : ℕ) : ℚ) := by
          push_cast
          rw [hkey]
          rw [show ((4 : ℚ)) ^ sqrtPrec = 2 ^ sqrtPrec * 2 ^ sqrtPrec from by
            rw [← mul_pow]; norm_num]
          ring
      _ < ((isqrt (q.num.toNat * q.den * 4 ^ sqrtPrec) : ℚ) + 1) *
          ((isqrt (q.num.toNat * q.den * 4 ^ sqrtPrec) : ℚ) + 1) := by exact_mod_cast hspec
  have hmono : sqrtQ q + 1 / ((q.den : ℚ) * 2 ^ sqrtPrec) ≤ sqrtQ q + 1 / 2 ^ sqrtPrec := by
    have h1 : (1 : ℚ) ≤ (q.den : ℚ) := by exact_mod_cast q.pos
    have h2 : (0 : ℚ) < 2 ^ sqrtPrec := by positivity
    have h3 : 1 / ((q.den : ℚ) * 2 ^ sqrtPrec) ≤ 1 / 2 ^ sqrtPrec := by
      apply div_le_div_of_nonneg_left (by norm_num) h2
      nlinarith
    linarith
  have hpos : 0 ≤ sqrtQ q + 1 / ((q.den : ℚ) * 2 ^ sqrtPrec) := by
    have := sqrtQ_nonneg q
    positivity
  nlinarith


/-! ## Concrete worlds -/

/-- The canonical single-plane floor world: solid `y ≤ 0`, empty above
(spec §8, "Gravity freefall" / "Floor landing"). -/
def floorTree : Tree := ⟨[⟨⟨⟨0, 1, 0⟩, 0⟩, -2, -1⟩], [⟨true⟩, ⟨false⟩], 0⟩

/-- Example settings used for concrete traces. -/
def testSettings : MoveSettings := ⟨2, 10, 1, 5, 1/10, 100, 10, 3, 1⟩

/-- A one-plane world whose solid half-space lies behind a 36.87°-sloped
plane with unit normal `(3/5, 4/5, 0)` (so `norm.y = 0.8 > 0.7`). -/
def slopeTree : Tree := ⟨[⟨⟨⟨3/5, 4/5, 0⟩, 0⟩, -2, -1⟩], [⟨true⟩, ⟨false⟩], 0⟩

/-! ## C8: a player at rest on the floor -/

lemma floor_plane_pad (px py pz e hx hz : ℚ) :
    padOf ⟨⟨0, 1, 0⟩, 0⟩ ⟨⟨px, py, pz⟩, ⟨0, e, 0⟩, ⟨hx, 1, hz⟩⟩ = 1 := by
  unfold padOf qabs
  norm_num

lemma floor_plane_sd (px py pz e hx hz : ℚ) :
    startdistOf ⟨⟨0, 1, 0⟩, 0⟩ ⟨⟨px, py, pz⟩, ⟨0, e, 0⟩, ⟨hx, 1, hz⟩⟩ = py := by
  unfold startdistOf dotV
  ring

lemma floor_plane_ed (px py pz e hx hz : ℚ) :
    enddistOf ⟨⟨0, 1, 0⟩, 0⟩ ⟨⟨px, py, pz⟩, ⟨0, e, 0⟩, ⟨hx, 1, hz⟩⟩ = py + e := by
  unfold enddistOf dotV vadd
  ring

lemma cast_rec_floor_leaf_empty (r : Ray) (best : Option CastResult) :
    cast_ray_recursive floorTree 1 r (-2) best = some (false, best) := by
  rw [show (1 : ℕ) = 0 + 1 from rfl, cast_ray_recursive]
  rw [if_pos (by norm_num : (-2 : Int) < 0)]
  rfl

lemma cast_rec_floor_leaf_solid (r : Ray) (best : Option CastResult) :
    cast_ray_recursive floorTree 1 r (-1) best = some (true, best) := by
  rw [show (1 : ℕ) = 0 + 1 from rfl, cast_ray_recursive]
  rw [if_pos (by norm_num : (-1 : Int) < 0)]
  rfl

/-- A box resting on the floor (`pos.y = 1 = halfextents.y`) that sweeps
downward immediately contacts the floor plane with TOI `0`. -/
lemma cast_floor_down (px pz e : ℚ) (he : e < 0) :
    cast_ray floorTree 2 ⟨⟨px, 1, pz⟩, ⟨0, e, 0⟩, ⟨1, 1, 1⟩⟩ =
      some (some ⟨0, ⟨0, 1, 0⟩⟩) := by
  have htest : Plane.test_ray ⟨⟨0, 1, 0⟩, 0⟩ ⟨⟨px, 1, pz⟩, ⟨0, e, 0⟩, ⟨1, 1, 1⟩⟩ =
      PlaneTestResult.Span ⟨0, ⟨0, 1, 0⟩⟩ := by
    rw [test_ray_unfold, floor_plane_pad, floor_plane_sd, floor_plane_ed]
    rw [if_neg (by intro hc; linarith [hc.2]), if_neg (by intro hc; linarith [hc.1])]
    rw [if_pos (Or.inl (by norm_num [qabs]))]
  have hdot : dotV (⟨0, e, 0⟩ : Vec3) ⟨0, 1, 0⟩ = e := by
    unfold dotV
    ring
  unfold cast_ray
  rw [show floorTree.root = (0 : Int) from rfl]
  rw [show (2 : ℕ) = 1 + 1 from rfl, cast_ray_recursive]
  rw [if_neg (by norm_num : ¬((0 : Int) < 0))]
  rw [show floorTree.inodes[(0 : Int).toNat]? = some ⟨⟨⟨0, 1, 0⟩, 0⟩, -2, -1⟩ from rfl]
  simp only [htest]
  rw [hdot, if_neg (not_le.mpr he), if_neg (not_le.mpr he)]
  rw [cast_rec_floor_leaf_empty]
  simp only [Bool.false_eq_true, if_false]
  rw [cast_rec_floor_leaf_solid]
  rfl

/-- A box resting on the floor that sweeps upward or not at all stays
entirely in front of the floor plane: no contact. -/
lemma cast_floor_up (px pz e : ℚ) (he : 0 ≤ e) :
    cast_ray floorTree 2 ⟨⟨px, 1, pz⟩, ⟨0, e, 0⟩, ⟨1, 1, 1⟩⟩ = some none := by
  have htest : Plane.test_ray ⟨⟨0, 1, 0⟩, 0⟩ ⟨⟨px, 1, pz⟩, ⟨0, e, 0⟩, ⟨1, 1, 1⟩⟩ =
      PlaneTestResult.Front := by
    rw [test_ray_unfold, floor_plane_pad, floor_plane_sd, floor_plane_ed]
    rw [if_pos ⟨by norm_num, by linarith⟩]
  unfold cast_ray
  rw [show floorTree.root = (0 : Int) from rfl]
  rw [show (2 : ℕ) = 1 + 1 from rfl, cast_ray_recursive]
  rw [if_neg (by norm_num : ¬((0 : Int) < 0))]
  rw [show floorTree.inodes[(0 : Int).toNat]? = some ⟨⟨⟨0, 1, 0⟩, 0⟩, -2, -1⟩ from rfl]
  simp only [htest]
  rw [cast_rec_floor_leaf_empty]
  rfl

lemma approxEq_false_of_ge (a : ℚ) (h : approxEps ≤ a) : approxEq a 0 = false := by
  unfold approxEq qabs
  rw [sub_zero]
  rw [if_neg (by unfold approxEps at h; norm_num; linarith)]
  simp only [decide_eq_false_iff_not, not_lt]
  exact h

lemma clip_floor_eq (k : ℚ) :
    clip_velocity ⟨0, -k, 0⟩ ⟨0, 1, 0⟩ = ⟨0, k / 100, 0⟩ := by
  unfold clip_velocity vsub smul dotV
  rw [Vec3.mk.injEq]
  refine ⟨by ring, by ring, by ring⟩

/-- A velocity pointing straight up violates no all-`(0,1,0)` contact
list, so the clipping loop's inner scan reports nothing. -/
lemma anyNegOther_floor (full : List Vec3) (i : ℕ) (k : ℚ) (hk : 0 ≤ k)
    (hall : ∀ c ∈ full, c = (⟨0, 1, 0⟩ : Vec3)) :
    anyNegOther full i ⟨0, k, 0⟩ = false := by
  unfold anyNegOther
  rw [List.any_eq_false]
  intro j hj
  simp only [Bool.and_eq_true, decide_eq_true_eq, not_and]
  intro _
  have hjl : j < full.length := List.mem_range.mp hj
  rw [List.getD_eq_getElem full vzero hjl, hall _ (List.getElem_mem hjl)]
  unfold dotV
  intro hc
  simp at hc
  linarith

/-- The clipping loop on any nonempty all-`(0,1,0)` contact list against a
vertical downward velocity exits after the first clip, with `bad = false`. -/
lemma clipStage_floor_all (k : ℚ) (hk : 0 ≤ k) (full : List Vec3)
    (hall : ∀ c ∈ full, c = (⟨0, 1, 0⟩ : Vec3)) (rest : List Vec3) (i : ℕ) :
    clipStage full (⟨0, 1, 0⟩ :: rest) i ⟨0, -k, 0⟩ = (⟨0, k / 100, 0⟩, false) := by
  rw [clipStage.eq_def]
  dsimp only
  rw [clip_floor_eq]
  rw [anyNegOther_floor full i (k / 100) (div_nonneg hk (by norm_num)) hall]
  rfl

/-- Contact resolution at rest against any number of horizontal floor
contacts: the clipped velocity points up, reverses against the pre-step
velocity (or vanishes), and the reversal guard zeroes it. -/
lemma slideContact_floor_all (k : ℚ) (hk : 0 ≤ k) (contacts : List Vec3)
    (hne : contacts ≠ []) (hall : ∀ c ∈ contacts, c = (⟨0, 1, 0⟩ : Vec3))
    (plvel : Vec3) (hpl : plvel = ⟨0, -k, 0⟩) :
    slideContact contacts plvel = vzero := by
  subst hpl
  cases contacts with
  | nil => exact absurd rfl hne
  | cons c rest =>
    have hc : c = ⟨0, 1, 0⟩ := hall c (List.mem_cons_self c rest)
    subst hc
    unfold slideContact
    dsimp only
    rw [clipStage_floor_all k hk _ hall rest 0]
    dsimp only
    simp only [Bool.false_eq_true, if_false]
    rcases lt_or_eq_of_le hk with hk1 | hk1
    · rw [if_pos (Or.inl (by
        unfold dotV
        nlinarith [mul_pos hk1 hk1]))]
    · rw [if_pos (Or.inr (by
        rw [show (⟨0, k / 100, 0⟩ : Vec3) = vzero from by
          rw [← hk1]
          unfold vzero
          rw [Vec3.mk.injEq]
          norm_num]
        rw [normV_vzero]
        norm_num))]

/-- Once the slide loop's velocity is zeroed over a world whose stationary
sweep reports the horizontal floor contact (or nothing), the remaining
iterations leave position, velocity and floor flag untouched. -/
lemma slideMove_floor_stable (t : Tree) (fuel : ℕ) (he plvel pos : Vec3) (dt : ℚ)
    (hdtne : approxEq dt 0 = false)
    (hcast0 : cast_ray t fuel ⟨pos, vzero, he⟩ = some none ∨
      cast_ray t fuel ⟨pos, vzero, he⟩ = some (some ⟨0, ⟨0, 1, 0⟩⟩))
    (hsc : ∀ cts : List Vec3, cts ≠ [] → (∀ c ∈ cts, c = (⟨0, 1, 0⟩ : Vec3)) →
      slideContact cts plvel = vzero) :
    ∀ (m : ℕ) (cts : List Vec3), (∀ c ∈ cts, c = (⟨0, 1, 0⟩ : Vec3)) →
    slideMove t fuel he plvel m pos dt vzero true cts = some (pos, vzero, true) := by
  intro m
  induction m with
  | zero =>
    intro cts _
    rw [slideMove]
  | succ p ih =>
    intro cts hcts
    rw [slideMove, hdtne]
    simp only [Bool.false_eq_true, if_false]
    rw [smul_vzero]
    rcases hcast0 with hc | hc
    · rw [hc, vadd_vzero]
    · rw [hc]
      dsimp only
      rw [if_neg (by norm_num : ¬((0 : ℚ) > 0))]
      have hall2 : ∀ c ∈ cts ++ [(⟨0, 1, 0⟩ : Vec3)], c = (⟨0, 1, 0⟩ : Vec3) := by
        intro c hcmem
        rcases List.mem_append.mp hcmem with h | h
        · exact hcts c h
        · simpa using h
      have hne2 : cts ++ [(⟨0, 1, 0⟩ : Vec3)] ≠ [] := by
        intro hnil
        have hlen := congrArg List.length hnil
        simp at hlen
      have hslide := hsc (cts ++ [⟨0, 1, 0⟩]) hne2 hall2
      rw [hslide]
      exact ih (cts ++ [⟨0, 1, 0⟩]) hall2

/-- The full slide loop for a resting box with a downward velocity, over
any world whose downward sweep reports the TOI-0 horizontal floor contact
and whose stationary sweep reports it or nothing: the contact zeroes the
velocity and nothing moves. -/
lemma slideMove_floor_pos (t : Tree) (fuel : ℕ) (he pos : Vec3) (dt k : ℚ)
    (hk : 0 < k) (hdtne : approxEq dt 0 = false)
    (hcastk : cast_ray t fuel ⟨pos, ⟨0, -(k * dt), 0⟩, he⟩ = some (some ⟨0, ⟨0, 1, 0⟩⟩))
    (hcast0 : cast_ray t fuel ⟨pos, vzero, he⟩ = some none ∨
      cast_ray t fuel ⟨pos, vzero, he⟩ = some (some ⟨0, ⟨0, 1, 0⟩⟩)) :
    slideMove t fuel he ⟨0, -k, 0⟩ 3 pos dt ⟨0, -k, 0⟩ false [] =
      some (pos, vzero, true) := by
  have hsc : ∀ cts : List Vec3, cts ≠ [] → (∀ c ∈ cts, c = (⟨0, 1, 0⟩ : Vec3)) →
      slideContact cts ⟨0, -k, 0⟩ = vzero := fun cts hne hall =>
    slideContact_floor_all k (le_of_lt hk) cts hne hall _ rfl
  have hdir : smul dt (⟨0, -k, 0⟩ : Vec3) = ⟨0, -(k * dt), 0⟩ := by
    unfold smul
    rw [Vec3.mk.injEq]
    refine ⟨by ring, by ring, by ring⟩
  rw [show (3 : ℕ) = 2 + 1 from rfl, slideMove, hdtne]
  simp only [Bool.false_eq_true, if_false]
  rw [hdir, hcastk]
  dsimp only
  rw [if_neg (by norm_num : ¬((0 : ℚ) > 0))]
  rw [show List.nil ++ [(⟨0, 1, 0⟩ : Vec3)] = [⟨0, 1, 0⟩] from rfl]
  rw [hsc [⟨0, 1, 0⟩] (by simp) (by intro c hcm; simpa using hcm)]
  rw [show (false || decide ((1 : ℚ) > 7/10)) = true from by norm_num]
  exact slideMove_floor_stable t fuel he ⟨0, -k, 0⟩ pos dt hdtne hcast0 hsc 2 [⟨0, 1, 0⟩]
    (by intro c hcm; simpa using hcm)

/-- The slide loop at exactly zero velocity over such a world: either the
first stationary sweep misses and nothing moves, or it reports the TOI-0
floor contact, the velocity stays zero and only the floor flag is set. -/
lemma slideMove_floor_zero (t : Tree) (fuel : ℕ) (he pos : Vec3) (dt : ℚ)
    (hdtne : approxEq dt 0 = false)
    (hcast0 : cast_ray t fuel ⟨pos, vzero, he⟩ = some none ∨
      cast_ray t fuel ⟨pos, vzero, he⟩ = some (some ⟨0, ⟨0, 1, 0⟩⟩)) :
    slideMove t fuel he vzero 3 pos dt vzero false [] = some (pos, vzero, false) ∨
    slideMove t fuel he vzero 3 pos dt vzero false [] = some (pos, vzero, true) := by
  have hsc : ∀ cts : List Vec3, cts ≠ [] → (∀ c ∈ cts, c = (⟨0, 1, 0⟩ : Vec3)) →
      slideContact cts vzero = vzero := fun cts hne hall =>
    slideContact_floor_all 0 (le_refl 0) cts hne hall vzero (by
      unfold vzero
      rw [Vec3.mk.injEq]
      norm_num)
  rcases hcast0 with hc | hc
  · left
    rw [show (3 : ℕ) = 2 + 1 from rfl, slideMove, hdtne]
    simp only [Bool.false_eq_true, if_false]
    rw [smul_vzero, hc, vadd_vzero]
  · right
    rw [show (3 : ℕ) = 2 + 1 from rfl, slideMove, hdtne]
    simp only [Bool.false_eq_true, if_false]
    rw [smul_vzero, hc]
    dsimp only
    rw [if_neg (by norm_num : ¬((0 : ℚ) > 0))]
    rw [show List.nil ++ [(⟨0, 1, 0⟩ : Vec3)] = [⟨0, 1, 0⟩] from rfl]
    rw [hsc [⟨0, 1, 0⟩] (by simp) (by intro c hcm; simpa using hcm)]
    rw [show (false || decide ((1 : ℚ) > 7/10)) = true from by norm_num]
    exact slideMove_floor_stable t fuel he vzero pos dt hdtne (Or.inr hc) hsc 2 [⟨0, 1, 0⟩]
      (by intro c hcm; simpa using hcm)

lemma frictionStep_vzero (f e M dt : ℚ) : frictionStep f e M dt vzero = vzero := by
  unfold frictionStep
  rw [normV_vzero]
  dsimp only
  rw [show approxEq 0 0 = true from by with_unfolding_all rfl]
  rfl

lemma accelStep_wishvel_vzero (a m c dt : ℚ) (vel : Vec3) :
    accelStep a m c vzero dt vel = vel := by
  unfold accelStep
  by_cases h : approxEq (clampQ (normV vzero) 0 c) 0 = true
  · simp only [h, if_true]
  · have h2 : approxEq (clampQ (normV vzero) 0 c) 0 = false := by
      revert h
      cases approxEq (clampQ (normV vzero) 0 c) 0 <;> simp
    simp only [h2, Bool.false_eq_true, if_false]
    rw [show normalizeV vzero = vzero from by unfold normalizeV; exact smul_vzero _]
    rw [smul_vzero, vadd_vzero]

lemma postClamp_vert (M m : ℚ) (hm : 0 ≤ m) (hM : 0 ≤ M) :
    ∃ k, 0 ≤ k ∧ postClamp M ⟨0, -m, 0⟩ = ⟨0, -k, 0⟩ := by
  have hnv : normV ⟨0, -m, 0⟩ = m := by
    unfold normV
    rw [show normSq ⟨0, -m, 0⟩ = m * m from by unfold normSq dotV; ring]
    exact sqrtQ_exact m hm
  by_cases happ : approxEq m 0 = true
  · refine ⟨m, hm, ?_⟩
    unfold postClamp
    simp only [hnv, happ, if_true]
  · have happ2 : approxEq m 0 = false := by
      revert happ
      cases approxEq m 0 <;> simp
    have hmpos : 0 < m := by
      rcases lt_or_eq_of_le hm with h | h
      · exact h
      · exfalso
        apply happ
        rw [← h]
        with_unfolding_all rfl
    refine ⟨clampQ m 0 M, clampQ_nonneg m M hM, ?_⟩
    unfold postClamp
    simp only [hnv, happ2, Bool.false_eq_true, if_false]
    rw [show normalizeV ⟨0, -m, 0⟩ = ⟨0, -1, 0⟩ from by
      unfold normalizeV
      rw [hnv]
      unfold smul
      rw [Vec3.mk.injEq]
      refine ⟨by ring, ?_, by ring⟩
      field_simp]
    unfold smul
    rw [Vec3.mk.injEq]
    refine ⟨by ring, by ring, by ring⟩

set_option maxRecDepth 100000 in
/-- C8 (counterexample): two failures of the claim. (a) For
`0 < dt < 1e-6` the slide loop exits immediately (`approx_eq(dt, 0)`), so
the gravity applied mid-step is never cancelled by the floor: the velocity
of a player at rest on the flat floor changes. (b) On a sloped floor with
unit normal `(3/5, 4/5, 0)` — so `norm.y = 0.8 > 0.7`, and the resting
box touches it: the mid-step downward sweep contacts it at TOI 0 — at
`dt = 1 ≥ 1e-6` the clipped gravity velocity survives the reversal guard
and the player slides along the slope: both `pos` and `vel` change. -/
theorem C8_rest_counterexample :
    ((0 : ℚ) < 1/2097152 ∧
     (move_player testSettings floorTree 2 ⟨⟨5, 1, -3⟩, vzero, ⟨1, 1, 1⟩, ⟨true, false⟩⟩
         ⟨vzero, false, false⟩ (1/2097152)).map Player.vel = some ⟨0, -(1/1048576), 0⟩ ∧
     (⟨0, -(1/1048576), 0⟩ : Vec3) ≠ vzero) ∧
    (normSq (⟨3/5, 4/5, 0⟩ : Vec3) = 1 ∧ (4 : ℚ)/5 > 7/10 ∧
     cast_ray slopeTree 2 ⟨⟨1, 1, 0⟩, ⟨0, -2, 0⟩, ⟨1, 1, 1⟩⟩ =
       some (some ⟨0, ⟨3/5, 4/5, 0⟩⟩) ∧
     move_player testSettings slopeTree 2 ⟨⟨1, 1, 0⟩, vzero, ⟨1, 1, 1⟩, ⟨true, false⟩⟩
         ⟨vzero, false, false⟩ 1 =
       some ⟨⟨1231/625, 183/625, 0⟩, ⟨606/625, -442/625, 0⟩, ⟨1, 1, 1⟩, ⟨true, false⟩⟩ ∧
     (⟨1231/625, 183/625, 0⟩ : Vec3) ≠ ⟨1, 1, 0⟩ ∧
     (⟨606/625, -442/625, 0⟩ : Vec3) ≠ vzero) := by
  refine ⟨⟨by norm_num, ?_, by with_unfolding_all decide⟩,
    ⟨by norm_num [normSq, dotV], by norm_num, ?_, ?_,
     by with_unfolding_all decide, by with_unfolding_all decide⟩⟩
  · with_unfolding_all rfl
  · with_unfolding_all rfl
  · with_unfolding_all rfl

/-- C8 (amended): a player at rest in contact with a horizontal floor —
`vel = 0`, `ON_GROUND` set, and the swept box touching a surface with
outward normal `(0, 1, 0)`, expressed by the casts the slide loop issues:
a downward sweep reports that contact at TOI 0 and a stationary sweep
reports it or nothing — with `wishvel = 0`, `jump = false`, `reset =
false` and any `dt ≥ 1e-6` is left by `move_player` with `pos` unchanged
and `vel` zero: the mid-step gravity is cancelled by the floor contact
before the tick ends. -/
theorem C8_rest_on_floor (S : MoveSettings) (t : Tree) (fuel : ℕ) (pos he : Vec3)
    (dt : ℚ) (hg : 0 ≤ S.gravity) (hM : 0 ≤ S.maxspeed) (hdt : approxEps ≤ dt)
    (hcast : ∀ k : ℚ, 0 < k →
      cast_ray t fuel ⟨pos, ⟨0, -k, 0⟩, he⟩ = some (some ⟨0, ⟨0, 1, 0⟩⟩))
    (hcast0 : cast_ray t fuel ⟨pos, vzero, he⟩ = some none ∨
      cast_ray t fuel ⟨pos, vzero, he⟩ = some (some ⟨0, ⟨0, 1, 0⟩⟩)) :
    ∃ hf, move_player S t fuel ⟨pos, vzero, he, ⟨true, false⟩⟩ ⟨vzero, false, false⟩ dt =
      some ⟨pos, vzero, he, ⟨hf, false⟩⟩ := by
  have hdtpos : 0 < dt := lt_of_lt_of_le (by norm_num [approxEps]) hdt
  have hdtne : approxEq dt 0 = false := approxEq_false_of_ge dt hdt
  have hm0 : 0 ≤ S.gravity * dt := mul_nonneg hg (le_of_lt hdtpos)
  obtain ⟨k, hk0, hpc⟩ := postClamp_vert S.maxspeed (S.gravity * dt) hm0 hM
  unfold move_player
  simp only [resetStep, jumpStep, Bool.false_and, Bool.false_eq_true, if_false]
  simp only [frictionStep_vzero, accelStep_wishvel_vzero]
  rw [show ({ x := vzero.x, y := vzero.y - S.gravity * dt, z := vzero.z } : Vec3) =
      ⟨0, -(S.gravity * dt), 0⟩ from by
    unfold vzero
    rw [Vec3.mk.injEq]
    refine ⟨rfl, by ring, rfl⟩]
  rw [hpc]
  rcases lt_or_eq_of_le hk0 with hk | hk
  · refine ⟨true, ?_⟩
    rw [slideMove_floor_pos t fuel he pos dt k hk hdtne
      (hcast (k * dt) (mul_pos hk hdtpos)) hcast0]
    rfl
  · have hveq : (⟨0, -k, 0⟩ : Vec3) = vzero := by
      rw [← hk]
      unfold vzero
      rw [Vec3.mk.injEq]
      norm_num
    rw [hveq]
    rcases slideMove_floor_zero t fuel he pos dt hdtne hcast0 with h | h
    · exact ⟨false, by rw [h]; rfl⟩
    · exact ⟨true, by rw [h]; rfl⟩

set_option maxRecDepth 100000 in
/-- C8 witness: the flat-floor world discharges the contact hypotheses at
the example settings and `dt = 1`. -/
theorem C8_rest_on_floor_witness :
    ((0 : ℚ) ≤ testSettings.gravity ∧ (0 : ℚ) ≤ testSettings.maxspeed ∧
     approxEps ≤ (1 : ℚ) ∧
     (∀ k : ℚ, 0 < k → cast_ray floorTree 2 ⟨⟨5, 1, -3⟩, ⟨0, -k, 0⟩, ⟨1, 1, 1⟩⟩ =
       some (some ⟨0, ⟨0, 1, 0⟩⟩)) ∧
     cast_ray floorTree 2 ⟨⟨5, 1, -3⟩, vzero, ⟨1, 1, 1⟩⟩ = some none) ∧
    (∃ hf, move_player testSettings floorTree 2 ⟨⟨5, 1, -3⟩, vzero, ⟨1, 1, 1⟩, ⟨true, false⟩⟩
        ⟨vzero, false, false⟩ 1 = some ⟨⟨5, 1, -3⟩, vzero, ⟨1, 1, 1⟩, ⟨hf, false⟩⟩) := by
  have hcast : ∀ k : ℚ, 0 < k →
      cast_ray floorTree 2 ⟨⟨5, 1, -3⟩, ⟨0, -k, 0⟩, ⟨1, 1, 1⟩⟩ =
        some (some ⟨0, ⟨0, 1, 0⟩⟩) := fun k hk =>
    cast_floor_down 5 (-3) (-k) (by linarith)
  have hcast0 : cast_ray floorTree 2 ⟨⟨5, 1, -3⟩, vzero, ⟨1, 1, 1⟩⟩ = some none :=
    cast_floor_up 5 (-3) 0 (le_refl 0)
  exact ⟨⟨by with_unfolding_all decide, by with_unfolding_all decide,
      by with_unfolding_all decide, hcast, hcast0⟩,
    C8_rest_on_floor testSettings floorTree 2 ⟨5, 1, -3⟩ ⟨1, 1, 1⟩ 1
      (by with_unfolding_all decide) (by with_unfolding_all decide)
      (by with_unfolding_all decide) hcast (Or.inl hcast0)⟩

/-! ## C1: cast_ray misses a straight-on wall hit -/

set_option maxRecDepth 100000 in
/-- C1: in the two-node world "solid `x ≤ 2` behind the splitter plane
`x = 4`", the point ray from `(8,0,0)` to `(0,0,0)` passes through solid
(the sweep point at `t = 15/16` is inside the wall), yet `cast_ray`
completes and returns absent.  The near/far sub-ray routing in
`cast_ray_recursive` sends each sub-segment into the subtree of the
opposite side of the plane, so the wall behind the splitter is tested
against the wrong segment and the contact at `toi = 0.75` is lost. -/
theorem C1_cast_ray_misses_wall :
    let t : Tree := ⟨[⟨⟨⟨1, 0, 0⟩, 4⟩, -2, 1⟩, ⟨⟨⟨1, 0, 0⟩, 2⟩, -2, -1⟩],
                     [⟨true⟩, ⟨false⟩], 0⟩
    let r : Ray := ⟨⟨8, 0, 0⟩, ⟨-8, 0, 0⟩, vzero⟩
    cast_ray t 10 r = some none ∧
    contains_point t 10 (vadd r.orig (smul (15/16) r.dir)) = some true ∧
    contains_point t 10 r.orig = some false := by
  refine ⟨?_, ?_, ?_⟩ <;> with_unfolding_all rfl

/-! ## C2: the JUMPED latch is never set -/

set_option maxRecDepth 100000 in
/-- C2: the `pl.flags.insert(PLAYER_JUMPED)` of the jump block is
commented out, so a jump fires without setting `JUMPED`: from the
grounded rest state `p0` with the button held, the jump block fires
(first three conjuncts), and a full tick returns exactly to `p0` — on
the ground with `JUMPED` still clear — so the next tick's jump block
fires again: two jumps within one contiguous button press. -/
theorem C2_jumped_latch_dead :
    let S : MoveSettings := testSettings
    let p0 : Player := ⟨⟨5, 1, -3⟩, vzero, ⟨1, 1, 1⟩, ⟨true, false⟩⟩
    (jumpStep S.jumpspeed true p0).vel.y = S.jumpspeed ∧
    (jumpStep S.jumpspeed true p0).flags.onGround = false ∧
    (jumpStep S.jumpspeed true p0).flags.jumped = false ∧
    move_player S floorTree 2 p0 ⟨vzero, true, false⟩ 1 = some p0 := by
  refine ⟨?_, ?_, ?_, ?_⟩ <;> with_unfolding_all rfl

/-! ## C3: the post-clamp speed bound survives the slide loop -/

lemma isqrt_pos (m : ℕ) (h : 1 ≤ m) : 1 ≤ isqrt m := by
  have hs := (isqrt_spec m).2
  by_contra hc
  push_neg at hc
  have h0 : isqrt m = 0 := by omega
  rw [h0] at hs
  norm_num at hs
  omega

lemma sqrtQ_pos (q : ℚ) (h : 0 < q) : 0 < sqrtQ q := by
  have hnum : 1 ≤ q.num.toNat := by
    have h2 : 0 < q.num := Rat.num_pos.mpr h
    omega
  have hden : 0 < q.den := q.pos
  have h4 : 0 < 4 ^ sqrtPrec := by positivity
  have harg : 1 ≤ q.num.toNat * q.den * 4 ^ sqrtPrec := by
    have := Nat.mul_pos (Nat.mul_pos (by omega : 0 < q.num.toNat) hden) h4
    omega
  have hj := isqrt_pos _ harg
  unfold sqrtQ
  apply div_pos
  · exact_mod_cast hj
  · positivity

/-- The floor square root of a positive rational is at least half the
true value: `q < (2·sqrtQ q)²`. -/
lemma sqrtQ_two_bound (q : ℚ) (h : 0 < q) : q < 4 * (sqrtQ q * sqrtQ q) := by
  have hnum : 1 ≤ q.num.toNat := by
    have h2 : 0 < q.num := Rat.num_pos.mpr h
    omega
  have hden : 0 < q.den := q.pos
  have harg : 1 ≤ q.num.toNat * q.den * 4 ^ sqrtPrec := by
    have h4 : 0 < 4 ^ sqrtPrec := by positivity
    have := Nat.mul_pos (Nat.mul_pos (by omega : 0 < q.num.toNat) hden) h4
    omega
  have hj := isqrt_pos _ harg
  have hspec := (isqrt_spec (q.num.toNat * q.den * 4 ^ sqrtPrec)).2
  have hkey := num_toNat_eq q (le_of_lt h)
  unfold sqrtQ
  rw [div_mul_div_comm, ← mul_div_assoc]
  rw [lt_div_iff₀ (by positivity)]
  have hcast1 : ((q.num.toNat * q.den * 4 ^ sqrtPrec : ℕ) : ℚ) <
      ((isqrt (q.num.toNat * q.den * 4 ^ sqrtPrec) : ℚ) + 1) *
      ((isqrt (q.num.toNat * q.den * 4 ^ sqrtPrec) : ℚ) + 1) := by exact_mod_cast hspec
  have hcast2 : (1 : ℚ) ≤ (isqrt (q.num.toNat * q.den * 4 ^ sqrtPrec) : ℚ) := by
    exact_mod_cast hj
  have heq : q * ((q.den : ℚ) * 2 ^ sqrtPrec * ((q.den : ℚ) * 2 ^ sqrtPrec)) =
      ((q.num.toNat * q.den * 4 ^ sqrtPrec : ℕ) : ℚ) := by
    push_cast
    rw [hkey]
    rw [show ((4 : ℚ)) ^ sqrtPrec = 2 ^ sqrtPrec * 2 ^ sqrtPrec from by
      rw [← mul_pow]; norm_num]
    ring
  rw [heq]
  nlinarith [hcast1, hcast2]

lemma approxEq_zero_iff (a : ℚ) : approxEq a 0 = true ↔ qabs a < approxEps := by
  unfold approxEq
  rw [sub_zero]
  simp [decide_eq_true_eq]

/-- The post-gravity clamp leaves the squared speed below
`(maxspeed + 1e-6)²` (the `1e-6` slack absorbs both the `approx_eq`
skip-branch and the square-root rounding of the model). -/
lemma postClamp_normSq_le (M : ℚ) (hM : approxEps ≤ M) (vel : Vec3) :
    normSq (postClamp M vel) ≤ (M + approxEps) ^ 2 := by
  have hq0 : 0 ≤ normSq vel := normSq_nonneg vel
  have hs0 : 0 ≤ normV vel := sqrtQ_nonneg _
  have hupper : normSq vel <
      (normV vel + 1 / 2 ^ sqrtPrec) * (normV vel + 1 / 2 ^ sqrtPrec) :=
    sqrtQ_upper _ hq0
  have heps : (1 : ℚ) / 2 ^ sqrtPrec ≤ approxEps := by
    norm_num [approxEps, sqrtPrec]
  have hMpos : (0 : ℚ) < M := lt_of_lt_of_le (by norm_num [approxEps]) hM
  unfold postClamp
  dsimp only
  by_cases happ : approxEq (normV vel) 0 = true
  · rw [if_pos happ]
    have hslt : normV vel < approxEps := by
      have h1 := (approxEq_zero_iff (normV vel)).mp happ
      rw [qabs_eq_abs, abs_of_nonneg hs0] at h1
      exact h1
    have h1 : 0 ≤ normV vel + 1 / 2 ^ sqrtPrec := by
      have h2 : (0:ℚ) < 1 / 2 ^ sqrtPrec := by positivity
      linarith
    have h2 : normV vel + 1 / 2 ^ sqrtPrec ≤ M + approxEps := by linarith
    have h3 := mul_self_le_mul_self h1 h2
    nlinarith [hupper, h3]
  · rw [if_neg happ]
    have hsge : approxEps ≤ normV vel := by
      have h1 : ¬ qabs (normV vel) < approxEps := fun hc =>
        happ ((approxEq_zero_iff (normV vel)).mpr hc)
      rw [qabs_eq_abs, abs_of_nonneg hs0] at h1
      exact not_lt.mp h1
    have hspos : (0 : ℚ) < normV vel := lt_of_lt_of_le (by norm_num [approxEps]) hsge
    rw [show normalizeV vel = smul (1 / normV vel) vel from rfl]
    rw [normSq_smul, normSq_smul]
    by_cases hsM : normV vel > M
    · have hc : clampQ (normV vel) 0 M = M := by
        unfold clampQ
        rw [if_neg (not_lt.mpr hs0), if_pos hsM]
      rw [hc]
      have h1 : M ^ 2 * ((1 / normV vel) ^ 2 * normSq vel) =
          M * M * normSq vel / (normV vel * normV vel) := by
        field_simp
        ring
      rw [h1, div_le_iff₀ (by positivity)]
      have h3 : M * (normV vel + 1 / 2 ^ sqrtPrec) ≤ (M + approxEps) * normV vel := by
        have h4 : M * (1 / 2 ^ sqrtPrec) ≤ normV vel * approxEps := by
          have h5 : M * (1 / 2 ^ sqrtPrec) ≤ M * approxEps :=
            mul_le_mul_of_nonneg_left heps (le_of_lt hMpos)
          have h6 : M * approxEps ≤ normV vel * approxEps := by
            apply mul_le_mul_of_nonneg_right (le_of_lt hsM)
            norm_num [approxEps]
          linarith
        nlinarith [h4]
      nlinarith [hupper, h3, hMpos, hspos, mul_pos hMpos hMpos,
        mul_self_le_mul_self (by positivity : (0:ℚ) ≤ M * (normV vel + 1 / 2 ^ sqrtPrec)) h3]
    · have hc : clampQ (normV vel) 0 M = normV vel := by
        unfold clampQ
        rw [if_neg (not_lt.mpr hs0), if_neg hsM]
      rw [hc]
      have h1 : normV vel ^ 2 * ((1 / normV vel) ^ 2 * normSq vel) = normSq vel := by
        field_simp
      rw [h1]
      push_neg at hsM
      have h2 : normV vel + 1 / 2 ^ sqrtPrec ≤ M + approxEps := by linarith
      have h3 : 0 ≤ normV vel + 1 / 2 ^ sqrtPrec := by positivity
      nlinarith [hupper, mul_self_le_mul_self h3 h2]

lemma dotV_comm (a b : Vec3) : dotV a b = dotV b a := by
  unfold dotV
  ring

lemma normSq_vzero : normSq vzero = 0 := by
  simp [normSq, dotV, vzero]

/-- A `Span` result of `test_ray` carries the plane's own normal. -/
lemma test_ray_span_norm (p : Plane) (r : Ray) (cr : CastResult)
    (h : p.test_ray r = PlaneTestResult.Span cr) : cr.norm = p.norm := by
  rw [test_ray_unfold] at h
  split_ifs at h <;> cases h <;> rfl

/-- The clipping loop of the slide step never increases the squared speed
when every contact normal is a unit vector. -/
lemma clipStage_normSq_le (full : List Vec3) : ∀ (rest : List Vec3) (i : ℕ) (v : Vec3),
    (∀ c ∈ rest, normSq c = 1) →
    normSq (clipStage full rest i v).1 ≤ normSq v := by
  intro rest
  induction rest with
  | nil =>
    intro i v _
    exact le_refl _
  | cons c tail ih =>
    intro i v hunit
    rw [clipStage.eq_def]
    dsimp only
    have hc : normSq c = 1 := hunit c (List.mem_cons_self c tail)
    have hclip : normSq (clip_velocity v c) ≤ normSq v := clip_velocity_normSq_le v c hc
    split_ifs with h1
    · exact hclip
    · cases tail with
      | nil => exact hclip
      | cons c2 rest2 =>
        have htail : ∀ x ∈ c2 :: rest2, normSq x = 1 := fun x hx =>
          hunit x (List.mem_cons_of_mem c hx)
        exact le_trans (ih (i + 1) (clip_velocity v c) htail) hclip

/-- When the clipping loop exits with `bad = true`, the final velocity still
violates some contact other than the last index scanned. -/
lemma clipStage_true (full : List Vec3) : ∀ (rest : List Vec3) (i : ℕ) (v w : Vec3),
    clipStage full rest i v = (w, true) →
    anyNegOther full (i + rest.length - 1) w = true := by
  intro rest
  induction rest with
  | nil =>
    intro i v w h
    rw [clipStage.eq_def] at h
    dsimp only at h
    simp at h
  | cons c tail ih =>
    intro i v w h
    rw [clipStage.eq_def] at h
    dsimp only at h
    split_ifs at h with h1
    · simp at h
    · cases tail with
      | nil =>
        dsimp only at h
        simp only [Prod.mk.injEq] at h
        obtain ⟨hw, -⟩ := h
        subst hw
        simp only [Bool.not_eq_true'] at h1
        have h2 : anyNegOther full i (clip_velocity v c) = true := by
          cases hx : anyNegOther full i (clip_velocity v c) with
          | false => exact absurd hx h1
          | true => rfl
        simpa using h2
      | cons c2 rest2 =>
        have h2 := ih (i + 1) (clip_velocity v c) w h
        have harith : i + (c :: c2 :: rest2).length - 1 = i + 1 + (c2 :: rest2).length - 1 := by
          simp only [List.length_cons]
          omega
        rw [harith]
        exact h2

/-- With two contacts, the residual violation after the clip loop is
against the first contact. -/
lemma anyNegOther_two (c0 c1 w : Vec3) (h : anyNegOther [c0, c1] 1 w = true) :
    dotV c0 w < 0 := by
  have he : anyNegOther [c0, c1] 1 w =
      (decide (dotV c0 w < 0) || (false || false)) := rfl
  rw [he] at h
  simp at h
  exact h

/-- The two-contact crease slide (including its forward-speed boost) never
increases the squared speed, provided the residual velocity still points
into the first contact. -/
lemma resolveBad_two_normSq_le (c0 c1 v : Vec3) (h0 : normSq c0 = 1) (h1 : normSq c1 = 1)
    (hneg : dotV c0 v < 0) :
    normSq (resolveBad [c0, c1] v) ≤ normSq v := by
  have hvne : v ≠ vzero := by
    intro hv
    rw [hv, dotV_vzero_right] at hneg
    exact lt_irrefl 0 hneg
  have hq0 : 0 < normSq v :=
    lt_of_le_of_ne (normSq_nonneg v) fun h => hvne ((normSq_eq_zero_iff v).mp h.symm)
  have hs : 0 < normV v := sqrtQ_pos _ hq0
  have h4 : normSq v < 4 * (normV v * normV v) := sqrtQ_two_bound _ hq0
  have hcs0 : dotV v c0 ^ 2 ≤ normSq v := by
    have h5 := dotV_sq_le v c0
    rw [h0, mul_one] at h5
    exact h5
  have hd : dotV v c0 < 0 := by
    rw [dotV_comm]
    exact hneg
  have hdlow : -(2 * normV v) < dotV v c0 := by
    nlinarith [hcs0, h4, hs, hd, sq_nonneg (dotV v c0 + 2 * normV v)]
  have hb0 : 0 < 1 + (1 / 2) * ((1 / normV v) * dotV v c0) := by
    have h5 : (-2 : ℚ) < dotV v c0 / normV v := by
      rw [lt_div_iff₀ hs]
      nlinarith [hdlow]
    have h6 : (1 / normV v) * dotV v c0 = dotV v c0 / normV v := by ring
    rw [h6]
    linarith
  have hb1 : 1 + (1 / 2) * ((1 / normV v) * dotV v c0) < 1 := by
    have h7 : (1 / normV v) * dotV v c0 < 0 :=
      mul_neg_of_pos_of_neg (one_div_pos.mpr hs) hd
    linarith
  have hb2 : (1 + (1 / 2) * ((1 / normV v) * dotV v c0)) ^ 2 ≤ 1 := by
    nlinarith [hb0, hb1]
  have hcr1 : normSq (crossV c0 c1) ≤ 1 := by
    rw [normSq_cross, h0, h1]
    nlinarith [sq_nonneg (dotV c0 c1)]
  have hcr0 : 0 ≤ normSq (crossV c0 c1) := normSq_nonneg _
  have hcs : dotV v (crossV c0 c1) ^ 2 ≤ normSq v * normSq (crossV c0 c1) := dotV_sq_le _ _
  have ht1 : dotV v (crossV c0 c1) ^ 2 * normSq (crossV c0 c1) ≤ normSq v := by
    nlinarith [mul_le_mul_of_nonneg_right hcs hcr0, mul_self_le_mul_self hcr0 hcr1, hq0,
      sq_nonneg (dotV v (crossV c0 c1))]
  have hres : resolveBad [c0, c1] v =
      smul (1 + (1 / 2) * dotV (normalizeV v) c0)
        (smul (dotV v (crossV c0 c1)) (crossV c0 c1)) := rfl
  rw [hres, normSq_smul, normSq_smul]
  have hmd : dotV (normalizeV v) c0 = (1 / normV v) * dotV v c0 := by
    rw [show normalizeV v = smul (1 / normV v) v from rfl, dotV_smul_left]
  rw [hmd]
  calc (1 + 1 / 2 * ((1 / normV v) * dotV v c0)) ^ 2 *
        (dotV v (crossV c0 c1) ^ 2 * normSq (crossV c0 c1))
      ≤ 1 * (dotV v (crossV c0 c1) ^ 2 * normSq (crossV c0 c1)) :=
        mul_le_mul_of_nonneg_right hb2 (mul_nonneg (sq_nonneg _) hcr0)
    _ = dotV v (crossV c0 c1) ^ 2 * normSq (crossV c0 c1) := one_mul _
    _ ≤ normSq v := ht1

/-- The clip loop followed by the `bad` fallback never increases the
squared speed. -/
lemma slideContact_clip_le (contacts : List Vec3) (plvel v1 : Vec3) (bad : Bool)
    (hunit : ∀ c ∈ contacts, normSq c = 1)
    (hcs : clipStage contacts contacts 0 plvel = (v1, bad)) :
    normSq (if bad = true then resolveBad contacts v1 else v1) ≤ normSq plvel := by
  have hclip : normSq v1 ≤ normSq plvel := by
    have h5 := clipStage_normSq_le contacts contacts 0 plvel hunit
    rw [hcs] at h5
    exact h5
  cases bad with
  | false => simpa using hclip
  | true =>
    rw [if_pos rfl]
    cases contacts with
    | nil =>
      rw [show resolveBad [] v1 = vzero from rfl, normSq_vzero]
      exact normSq_nonneg plvel
    | cons c0 tail =>
      cases tail with
      | nil =>
        exact le_trans (clip_velocity_normSq_le v1 c0 (hunit c0 (by simp))) hclip
      | cons c1 tail2 =>
        cases tail2 with
        | nil =>
          have hany := clipStage_true [c0, c1] [c0, c1] 0 plvel v1 hcs
          have hneg : dotV c0 v1 < 0 := anyNegOther_two c0 c1 v1 (by simpa using hany)
          exact le_trans
            (resolveBad_two_normSq_le c0 c1 v1 (hunit c0 (by simp)) (hunit c1 (by simp)) hneg)
            hclip
        | cons c2 tail3 =>
          rw [show resolveBad (c0 :: c1 :: c2 :: tail3) v1 = vzero from rfl, normSq_vzero]
          exact normSq_nonneg plvel

/-- Full contact resolution of one slide hit (clip loop, `bad` fallback,
reversal guard) never increases the squared speed. -/
lemma slideContact_normSq_le (contacts : List Vec3) (plvel : Vec3)
    (hunit : ∀ c ∈ contacts, normSq c = 1) :
    normSq (slideContact contacts plvel) ≤ normSq plvel := by
  unfold slideContact
  dsimp only
  have hv := slideContact_clip_le contacts plvel (clipStage contacts contacts 0 plvel).1
    (clipStage contacts contacts 0 plvel).2 hunit rfl
  by_cases hg : dotV (if (clipStage contacts contacts 0 plvel).2 = true
      then resolveBad contacts (clipStage contacts contacts 0 plvel).1
      else (clipStage contacts contacts 0 plvel).1) plvel < 0 ∨
      normV (if (clipStage contacts contacts 0 plvel).2 = true
      then resolveBad contacts (clipStage contacts contacts 0 plvel).1
      else (clipStage contacts contacts 0 plvel).1) < 3 / 4
  · rw [if_pos hg, normSq_vzero]
    exact normSq_nonneg plvel
  · rw [if_neg hg]
    exact hv

lemma mem_of_getElem_opt {α : Type} (l : List α) (n : ℕ) (a : α)
    (h : l[n]? = some a) : a ∈ l := by
  rw [List.getElem?_eq_some] at h
  obtain ⟨hlt, rfl⟩ := h
  exact List.getElem_mem hlt

/-- Provenance of cast results: every contact normal a completed
`cast_ray_recursive` can report comes from some splitting plane of the
tree, so it is a unit vector whenever all the tree's plane normals are. -/
lemma cast_ray_recursive_norm_unit (t : Tree)
    (hn : ∀ nd ∈ t.inodes, normSq nd.plane.norm = 1) :
    ∀ (fuel : ℕ) (ray : Ray) (idx : Int) (best : Option CastResult)
      (out : Bool × Option CastResult),
    cast_ray_recursive t fuel ray idx best = some out →
    (∀ cr, best = some cr → normSq cr.norm = 1) →
    ∀ cr, out.2 = some cr → normSq cr.norm = 1 := by
  intro fuel
  induction fuel with
  | zero =>
    intro ray idx best out h hbest
    simp [cast_ray_recursive] at h
  | succ n ih =>
    intro ray idx best out h hbest
    rw [cast_ray_recursive] at h
    by_cases hidx : idx < 0
    · rw [if_pos hidx] at h
      cases hleaf : t.leaves[(-idx - 1).toNat]? with
      | none =>
        simp only [hleaf] at h
        cases h
      | some l =>
        simp only [hleaf] at h
        cases h
        exact hbest
    · rw [if_neg hidx] at h
      cases hnode : t.inodes[idx.toNat]? with
      | none =>
        simp only [hnode] at h
        cases h
      | some node =>
        simp only [hnode] at h
        have hmem : node ∈ t.inodes := mem_of_getElem_opt _ _ _ hnode
        cases htest : node.plane.test_ray ray with
        | Front =>
          simp only [htest] at h
          exact ih ray node.pos best out h hbest
        | Back =>
          simp only [htest] at h
          exact ih ray node.neg best out h hbest
        | Span cresult =>
          simp only [htest] at h
          have hcn : normSq cresult.norm = 1 := by
            rw [test_ray_span_norm node.plane ray cresult htest]
            exact hn node hmem
          cases h1 : cast_ray_recursive t n
              (if dotV ray.dir node.plane.norm ≥ 0 then (ray.split cresult.toi).1
                else (ray.split cresult.toi).2) node.pos best with
          | none =>
            simp only [h1] at h
            cases h
          | some out1 =>
            obtain ⟨b1, best1⟩ := out1
            simp only [h1] at h
            have hb1 : ∀ cr, best1 = some cr → normSq cr.norm = 1 :=
              ih _ node.pos best (b1, best1) h1 hbest
            cases b1 with
            | true =>
              rw [if_pos rfl] at h
              cases h
              exact visitPlane_prop (fun c => normSq c.norm = 1) best1 cresult hb1 hcn
            | false =>
              rw [if_neg (by simp)] at h
              cases h2 : cast_ray_recursive t n
                  (if dotV ray.dir node.plane.norm ≥ 0 then (ray.split cresult.toi).2
                    else (ray.split cresult.toi).1) node.neg best1 with
              | none =>
                simp only [h2] at h
                cases h
              | some out2 =>
                obtain ⟨b2, best2⟩ := out2
                simp only [h2] at h
                have hb2 : ∀ cr, best2 = some cr → normSq cr.norm = 1 :=
                  ih _ node.neg best1 (b2, best2) h2 hb1
                cases b2 with
                | true =>
                  rw [if_pos rfl] at h
                  cases h
                  exact visitPlane_prop (fun c => normSq c.norm = 1) best2 cresult hb2 hcn
                | false =>
                  rw [if_neg (by simp)] at h
                  cases h
                  exact hb2

/-- A hit reported by `cast_ray` on a tree with unit plane normals has a
unit contact normal. -/
lemma cast_ray_norm_unit (t : Tree) (hn : ∀ nd ∈ t.inodes, normSq nd.plane.norm = 1)
    (fuel : ℕ) (ray : Ray) (cr : CastResult)
    (h : cast_ray t fuel ray = some (some cr)) : normSq cr.norm = 1 := by
  unfold cast_ray at h
  cases hrec : cast_ray_recursive t fuel ray t.root none with
  | none =>
    rw [hrec] at h
    cases h
  | some out =>
    rw [hrec] at h
    simp only [Option.map_some'] at h
    have h2 : out.2 = some cr := Option.some.inj h
    exact cast_ray_recursive_norm_unit t hn fuel ray t.root none out hrec
      (fun c hc => by cases hc) cr h2

/-- The collide-and-slide loop never increases the squared speed above that
of the velocity `plvel` it resolves contacts against, when the tree's plane
normals are unit vectors. -/
lemma slideMove_normSq_le (t : Tree) (hn : ∀ nd ∈ t.inodes, normSq nd.plane.norm = 1)
    (fuel : ℕ) (he : Vec3) (plvel : Vec3) :
    ∀ (n : ℕ) (pos : Vec3) (dt : ℚ) (v : Vec3) (hf : Bool) (cts : List Vec3)
      (out : Vec3 × Vec3 × Bool),
    (∀ c ∈ cts, normSq c = 1) →
    normSq v ≤ normSq plvel →
    slideMove t fuel he plvel n pos dt v hf cts = some out →
    normSq out.2.1 ≤ normSq plvel := by
  intro n
  induction n with
  | zero =>
    intro pos dt v hf cts out hcts hv h
    rw [slideMove] at h
    cases h
    exact hv
  | succ m ih =>
    intro pos dt v hf cts out hcts hv h
    rw [slideMove] at h
    split_ifs at h with hdt
    · cases h
      exact hv
    · cases hcast : cast_ray t fuel ⟨pos, smul dt v, he⟩ with
      | none =>
        simp only [hcast] at h
        cases h
      | some o =>
        cases o with
        | none =>
          simp only [hcast] at h
          cases h
          exact hv
        | some cast =>
          simp only [hcast] at h
          have hcr : normSq cast.norm = 1 := cast_ray_norm_unit t hn fuel _ cast hcast
          split_ifs at h with htoi htoi1
          · cases h
            exact hv
          · refine ih _ _ _ _ _ out ?_ ?_ h
            · intro c hc
              simp only [List.mem_singleton] at hc
              rw [hc]
              exact hcr
            · exact slideContact_normSq_le [cast.norm] plvel fun c hc => by
                simp only [List.mem_singleton] at hc
                rw [hc]
                exact hcr
          · refine ih _ _ _ _ _ out ?_ ?_ h
            · intro c hc
              rw [List.mem_append] at hc
              rcases hc with hc | hc
              · exact hcts c hc
              · simp only [List.mem_singleton] at hc
                rw [hc]
                exact hcr
            · exact slideContact_normSq_le (cts ++ [cast.norm]) plvel fun c hc => by
                rw [List.mem_append] at hc
                rcases hc with hc | hc
                · exact hcts c hc
                · simp only [List.mem_singleton] at hc
                  rw [hc]
                  exact hcr

/-- C3: for every settings record with `maxspeed ≥ 1e-6`, every tree whose
splitting-plane normals are unit vectors, every player state, input and
`dt`, a completed `move_player` step leaves the squared speed at most
`(maxspeed + 1e-6)²` — i.e. `|player.vel| ≤ maxspeed + ε` with `ε = 1e-6`:
the post-gravity clamp bounds the speed and no step of the collide-and-slide
loop (clip, crease slide with its forward-speed boost, reversal guard) can
raise it again. -/
theorem C3_speed_cap (S : MoveSettings) (bsp : Tree) (fuel : ℕ) (pl : Player)
    (input : MoveInput) (dt : ℚ) (pl2 : Player)
    (hunit : ∀ nd ∈ bsp.inodes, normSq nd.plane.norm = 1)
    (hM : approxEps ≤ S.maxspeed)
    (h : move_player S bsp fuel pl input dt = some pl2) :
    normSq pl2.vel ≤ (S.maxspeed + approxEps) ^ 2 := by
  unfold move_player at h
  dsimp only at h
  split at h
  · cases h
  · next pos v hitFloor heq =>
    cases h
    show normSq v ≤ (S.maxspeed + approxEps) ^ 2
    refine le_trans
      (slideMove_normSq_le bsp hunit fuel _ _ 3 _ dt _ false [] _
        (fun c hc => absurd hc (List.not_mem_nil c)) (le_refl _) heq)
      (postClamp_normSq_le S.maxspeed hM _)

set_option maxRecDepth 100000 in
/-- Witness for C3: the resting player on the flat-floor world satisfies
the hypotheses, and the proved bound applies to the concrete tick. -/
theorem C3_speed_cap_witness :
    (∀ nd ∈ floorTree.inodes, normSq nd.plane.norm = 1) ∧
    approxEps ≤ testSettings.maxspeed ∧
    move_player testSettings floorTree 2
        ⟨⟨5, 1, -3⟩, vzero, ⟨1, 1, 1⟩, ⟨true, false⟩⟩ ⟨vzero, false, false⟩ 1 =
      some ⟨⟨5, 1, -3⟩, vzero, ⟨1, 1, 1⟩, ⟨true, false⟩⟩ ∧
    normSq (Player.vel ⟨⟨5, 1, -3⟩, vzero, ⟨1, 1, 1⟩, ⟨true, false⟩⟩) ≤
      (testSettings.maxspeed + approxEps) ^ 2 := by
  have hunit : ∀ nd ∈ floorTree.inodes, normSq nd.plane.norm = 1 := by
    intro nd hnd
    have h1 : nd = ⟨⟨⟨0, 1, 0⟩, 0⟩, -2, -1⟩ := by
      simpa [floorTree] using hnd
    subst h1
    norm_num [normSq, dotV]
  have hM : approxEps ≤ testSettings.maxspeed := by
    norm_num [approxEps, testSettings]
  have hmove : move_player testSettings floorTree 2
      ⟨⟨5, 1, -3⟩, vzero, ⟨1, 1, 1⟩, ⟨true, false⟩⟩ ⟨vzero, false, false⟩ 1 =
      some ⟨⟨5, 1, -3⟩, vzero, ⟨1, 1, 1⟩, ⟨true, false⟩⟩ := by
    with_unfolding_all rfl
  exact ⟨hunit, hM, hmove,
    C3_speed_cap testSettings floorTree 2 _ _ 1 _ hunit hM hmove⟩

end Vel0city
